import Mathlib

/-!
Verification development for knowledge_graph.py: a self-describing knowledge
graph over text documents with YAML-like frontmatter headers.  The Python
source is shallowly embedded: strings are `String`, Python dicts become
insertion-ordered association lists, the filesystem becomes an explicit
`String → Option String` map, and exceptions become `Except`/`Option` values.
Every definition is translated from the source; the few definitions written
from the specification's words (for refinement comparisons) say so in their
doc comments.
-/

namespace KG

/-- Decidable equality for Except values (used to evaluate the resolver on
concrete graphs). -/
instance {ε α : Type} [DecidableEq ε] [DecidableEq α] : DecidableEq (Except ε α) := fun x y =>
  match x, y with
  | Except.ok a, Except.ok b =>
    if h : a = b then isTrue (by rw [h]) else isFalse (by simp [h])
  | Except.error a, Except.error b =>
    if h : a = b then isTrue (by rw [h]) else isFalse (by simp [h])
  | Except.ok _, Except.error _ => isFalse (by simp)
  | Except.error _, Except.ok _ => isFalse (by simp)

/- ## Character/string utilities (Python str operations, modelled on List Char) -/

/-- Lower-case a character list; models Python str.lower() (ASCII subset). -/
def lowerChars (l : List Char) : List Char :=
  l.map Char.toLower

/-- Python s.startswith(pre). -/
def strStartsWith (s pre : String) : Bool :=
  pre.data.isPrefixOf s.data

/-- Python s.endswith(suf). -/
def strEndsWith (s suf : String) : Bool :=
  suf.data.reverse.isPrefixOf s.data.reverse

/-- Python s[n:] (character based). -/
def strDrop (s : String) (n : Nat) : String :=
  String.mk (s.data.drop n)

/-- Python substring containment: needle in haystack. -/
def listContainsSub (needle : List Char) : List Char → Bool
  | [] => needle.isEmpty
  | c :: t => needle.isPrefixOf (c :: t) || listContainsSub needle t

/-- Leftmost index at which pat occurs in a character list (re.search of a
literal pattern); none when absent. -/
def findSubIdx (pat : List Char) : List Char → Option Nat
  | [] => if pat.isEmpty then some 0 else none
  | c :: t => if pat.isPrefixOf (c :: t) then some 0 else (findSubIdx pat t).map (· + 1)

/-- Python str.lstrip() on characters. -/
def trimLeft (l : List Char) : List Char :=
  l.dropWhile Char.isWhitespace

/-- Python str.rstrip() on characters. -/
def trimRight (l : List Char) : List Char :=
  (l.reverse.dropWhile Char.isWhitespace).reverse

/-- Python str.strip() on characters. -/
def trimBoth (l : List Char) : List Char :=
  trimLeft (trimRight l)

/-- str.strip() returning a String. -/
def strip (l : List Char) : String :=
  String.mk (trimBoth l)

/-- Python str.partition(sep) with sep = a colon, keeping only (before, after):
the code uses key, _, value = s.partition(a colon).  With no separator the
whole input is the key and the value is empty, as in Python. -/
def partitionColon : List Char → List Char × List Char
  | [] => ([], [])
  | c :: t =>
    if c = ':' then ([], t)
    else
      let (a, b) := partitionColon t
      (c :: a, b)

/-- Python s.split(sep) for a single character separator (keeps empty pieces). -/
def splitOnCharAux (sep : Char) : List Char → List Char → List (List Char)
  | [], cur => [cur.reverse]
  | c :: t, cur =>
    if c = sep then cur.reverse :: splitOnCharAux sep t []
    else splitOnCharAux sep t (c :: cur)

def splitOnChar (sep : Char) (l : List Char) : List (List Char) :=
  splitOnCharAux sep l []

/-- Does the character list contain a colon? -/
def hasColon (l : List Char) : Bool :=
  l.contains ':'

/-- The literal "- " opening a YAML list item. -/
def dashSpace : List Char := ['-', ' ']

/-- Python dict assignment d[k] = v on an insertion-ordered association list:
overwrite in place when the key exists, else append. -/
def upsert {α : Type} (m : List (String × α)) (k : String) (v : α) : List (String × α) :=
  match m with
  | [] => [(k, v)]
  | (k', v') :: t => if k' = k then (k, v) :: t else (k', v') :: upsert t k v

/- ## Paths (pathlib.Path operations used by the code) -/

/-- Path.home(), fixed for the embedding. -/
def homeDir : String := "/home/user"

/-- WORKSPACE = Path.home() / ".openclaw" / "workspace". -/
def WORKSPACE : String := homeDir ++ "/.openclaw/workspace"

/-- GDRIVE = Path.home() / "gdrive". -/
def GDRIVE : String := homeDir ++ "/gdrive"

/-- pathlib's / join for one trailing part: an absolute right side replaces
the left, an empty part is dropped, otherwise the parts are joined with a
slash. -/
def pathJoin (a b : String) : String :=
  if b = "" then a
  else if strStartsWith b "/" then b
  else a ++ "/" ++ b

/-- Path(p).expanduser() for a path whose first component is "~" or "~name"
(the code reaches it only for paths that start with "~" but not "~/"): a bare
"~" is the calling user's home; "~name" selects user name's home directory
from the system user database, and pathlib raises RuntimeError when the user
is unknown — modelled as Except over an explicit database. -/
def expanduser (users : String → Option String) (p : String) : Except Unit String :=
  match p.data.drop 1 with
  | [] => Except.ok homeDir
  | rest =>
    let name := rest.takeWhile fun c => c ≠ '/'
    let tail := rest.dropWhile fun c => c ≠ '/'
    match users (String.mk name) with
    | some h => Except.ok (h ++ String.mk tail)
    | none => Except.error ()

/-- expand_path from the source, parametrized by the system user database
(the external collaborator behind Path.expanduser): "~/" is replaced by the
home directory, other "~…" forms go through expanduser (which can fail), a
relative path is joined to WORKSPACE, an absolute path is kept.
str(Path(...)) normalization of duplicate slashes is not modelled; the paths
in play are already in normal form. -/
def expand_path_env (users : String → Option String) (path_str : String) :
    Except Unit String :=
  if strStartsWith path_str "~/" then Except.ok (pathJoin homeDir (strDrop path_str 2))
  else if strStartsWith path_str "~" then expanduser users path_str
  else if strStartsWith path_str "/" = false then Except.ok (pathJoin WORKSPACE path_str)
  else Except.ok path_str

/-- The simplified expansion used by the rest of the development: identical
to expand_path_env except that "~name" forms are left unchanged instead of
consulting the user database (expand_path_env_agrees below shows the two
agree on every other reference, which is the only territory the remaining
claims inhabit). -/
def expand_path (path_str : String) : String :=
  if strStartsWith path_str "~/" then pathJoin homeDir (strDrop path_str 2)
  else if path_str = "~" then homeDir
  else if strStartsWith path_str "~" then path_str
  else if strStartsWith path_str "/" = false then pathJoin WORKSPACE path_str
  else path_str

/-- Path(p).name: the final path component ("" and "." segments dropped, as
pathlib does; the name of "/" is ""). -/
def pathName (p : String) : String :=
  let segs := (splitOnChar '/' p.data).filter fun seg => !seg.isEmpty && !(seg == ['.'])
  String.mk (segs.getLastD [])

/-- Index of the last dot in a character list. -/
def lastDotIdxAux : List Char → Nat → Option Nat → Option Nat
  | [], _, best => best
  | c :: t, i, best => lastDotIdxAux t (i + 1) (if c = '.' then some i else best)

def lastDotIdx (l : List Char) : Option Nat :=
  lastDotIdxAux l 0 none

/-- Path(p).stem, as CPython computes it: the name with its final suffix
removed when the last dot sits strictly inside the name. -/
def pathStem (p : String) : String :=
  let n := (pathName p).data
  match lastDotIdx n with
  | none => String.mk n
  | some i => if 0 < i ∧ i < n.length - 1 then String.mk (n.take i) else String.mk n

/- ## Frontmatter values (restricted YAML subset) -/

/-- A list item in the frontmatter: a plain scalar or a flat record.  The
same shape carries a node's optional-dependency entries. -/
inductive Item where
  | str (s : String)
  | dict (fields : List (String × String))
deriving DecidableEq

/-- A frontmatter value: a scalar or a list of items. -/
inductive FMVal where
  | scalar (s : String)
  | list (items : List Item)
deriving DecidableEq

/-- Append an item to the list stored under key (the code appends through the
current_list alias into frontmatter[key]). -/
def fmAppendItem (fm : List (String × FMVal)) (key : String) (it : Item) :
    List (String × FMVal) :=
  fm.map fun kv =>
    if kv.1 = key then
      (kv.1, match kv.2 with
             | FMVal.list items => FMVal.list (items ++ [it])
             | v => v)
    else kv

/-- Update the last item of a list, which the cross-line current_dict alias
points at, with one more field (Python dict assignment). -/
def updateLastItem (items : List Item) (k v : String) : List Item :=
  match items with
  | [] => []
  | [Item.dict d] => [Item.dict (upsert d k v)]
  | [it] => [it]
  | it :: rest => it :: updateLastItem rest k v

def fmUpdateLastDict (fm : List (String × FMVal)) (key k v : String) :
    List (String × FMVal) :=
  fm.map fun kv =>
    if kv.1 = key then
      (kv.1, match kv.2 with
             | FMVal.list items => FMVal.list (updateLastItem items k v)
             | x => x)
    else kv

/-- Parser state across lines: the map built so far, the key whose list is
open (current_list), and whether the last list item is an open record
(current_dict is not None).  The current_dict alias always points at the last
item of the open list, so a Bool suffices; current_key is written but never
read in the source and is not modelled. -/
structure FMState where
  fm : List (String × FMVal)
  currentList : Option String
  dictOpen : Bool

/-- One line of the frontmatter body, translated branch for branch from the
loop in parse_frontmatter. -/
def fmLine (st : FMState) (line : List Char) : FMState :=
  let lineStripped := trimRight line
  if lineStripped.isEmpty then st
  else
    let indent := (line.takeWhile Char.isWhitespace).length
    let lineContent := trimBoth lineStripped
    if dashSpace.isPrefixOf lineContent ∧ hasColon (lineContent.drop 2) then
      -- "- key: value" starts a record item (only inside an open list)
      match st.currentList with
      | some key =>
        let (k, v) := partitionColon (lineContent.drop 2)
        { fm := fmAppendItem st.fm key (Item.dict [(strip k, strip v)]),
          currentList := st.currentList, dictOpen := true }
      | none => st
    else if 4 ≤ indent ∧ st.dictOpen ∧ hasColon lineContent then
      -- continuation "    field: value" extends the open record
      match st.currentList with
      | some key =>
        let (k, v) := partitionColon lineContent
        { fm := fmUpdateLastDict st.fm key (strip k) (strip v),
          currentList := st.currentList, dictOpen := true }
      | none => st
    else if dashSpace.isPrefixOf lineContent then
      -- "- value" plain list item; closes any open record
      match st.currentList with
      | some key =>
        { fm := fmAppendItem st.fm key (Item.str (strip (lineContent.drop 2))),
          currentList := st.currentList, dictOpen := false }
      | none => st
    else if hasColon lineContent ∧ indent = 0 then
      -- top level "key: value" or "key:" opening a list
      let (k, v) := partitionColon lineContent
      let key := strip k
      let value := strip v
      if value ≠ "" then
        { fm := upsert st.fm key (FMVal.scalar value), currentList := none, dictOpen := false }
      else
        { fm := upsert st.fm key (FMVal.list []), currentList := some key, dictOpen := false }
    else st

/-- The closing fence pattern the code searches for in content[3:]. -/
def closingMarker : List Char := ("\n---\n").data

/-- parse_frontmatter from the source.  A document that does not open with
"---", or has no "\n---\n" after position 3, is returned unchanged with an
empty map.  Otherwise the block between the fences is parsed line by line and
the body is content[end_match.end() + 3 + 1:], i.e. the text after the
closing fence with one further character dropped. -/
def parse_frontmatter (content : String) : List (String × FMVal) × String :=
  if strStartsWith content "---" = false then ([], content)
  else
    match findSubIdx closingMarker (content.data.drop 3) with
    | none => ([], content)
    | some i =>
      let fmStr := (content.data.drop 3).take i
      let body := String.mk (content.data.drop (i + 5 + 3 + 1))
      let lines := splitOnChar '\n' fmStr
      let final := lines.foldl fmLine ⟨[], none, false⟩
      (final.fm, body)

/-- Modelled from the spec: the body is exactly the document text that
follows the closing marker line — the characters after the first "\n---\n"
found beyond the opening marker.  Used to compare the parser's actual body
against the specified one. -/
def bodyAfterClosing (content : String) : Option String :=
  if strStartsWith content "---" then
    match findSubIdx closingMarker (content.data.drop 3) with
    | some i => some (String.mk (content.data.drop (i + 8)))
    | none => none
  else none

/- ## Graph Index data model -/

/-- One indexed document, as built by scan_knowledge_files.  `requires`
entries are plain reference strings and `optional` entries keep the
string-or-record shape, following the data model; `specialist` may be
absent. -/
structure Node where
  id : String
  type : String
  path : String
  title : String
  specialist : Option String
  requires : List String
  optional : List Item
  provides : List String
deriving DecidableEq

/-- The Graph Index: nodes keyed by id, the edge list, the path→id and
type→ids lookups.  Python dicts become insertion-ordered association
lists. -/
structure Graph where
  nodes : List (String × Node)
  edges : List (String × String × String)
  by_path : List (String × String)
  by_type : List (String × List String)
deriving DecidableEq

/-- Convenience constructor for concrete graphs in the development. -/
def mkNode (id ty path : String) (requires : List String) (optional : List Item) : Node :=
  ⟨id, ty, path, id, none, requires, optional, []⟩

/- ## Reference Resolver -/

/-- resolve_node_id from the source: direct id lookup, then the expanded
path against by_path, then the first by_path entry whose path ends with the
reference or whose final component equals it; None when nothing matches. -/
def resolve_node_id (g : Graph) (ref : String) : Option String :=
  if (g.nodes.lookup ref).isSome then some ref
  else
    match g.by_path.lookup (expand_path ref) with
    | some nid => some nid
    | none =>
      (g.by_path.find? fun pr => strEndsWith pr.1 ref || pathName pr.1 == ref).map Prod.snd

/-- resolve_node_id with the user database explicit: the expand_path call
sits outside any try block, so a RuntimeError raised by Path.expanduser for
an unknown "~name" reference propagates out of resolve_node_id (the
Except.error case) instead of producing None. -/
def resolve_node_id_env (users : String → Option String) (g : Graph) (ref : String) :
    Except Unit (Option String) :=
  if (g.nodes.lookup ref).isSome then Except.ok (some ref)
  else
    match expand_path_env users ref with
    | Except.error e => Except.error e
    | Except.ok expanded =>
      match g.by_path.lookup expanded with
      | some nid => Except.ok (some nid)
      | none =>
        Except.ok ((g.by_path.find? fun pr =>
          strEndsWith pr.1 ref || pathName pr.1 == ref).map Prod.snd)

/- ## Dependency Resolver (BFS with a visited set) -/

/-- The node lookup at the head of the loop body: graph["nodes"].get(node_id),
falling back to resolve_node_id when missing (an empty resolved id is falsy
in Python and is treated as no resolution).  Returns the node, if any, and
the possibly reassigned node_id. -/
def lookupNodeFor (g : Graph) (r : String) : Option Node × String :=
  match g.nodes.lookup r with
  | some n => (some n, r)
  | none =>
    match resolve_node_id g r with
    | some rid => if rid = "" then (none, r) else (g.nodes.lookup rid, rid)
    | none => (none, r)

/-- The requires loop: resolve each entry and keep it when the resolved id is
truthy and not yet visited. -/
def newRequireIds (g : Graph) (visited : List String) (node : Node) : List String :=
  node.requires.filterMap fun req =>
    match resolve_node_id g req with
    | some rid => if rid = "" ∨ rid ∈ visited then none else some rid
    | none => none

/-- The optional loop (only run with include_optional).  A structured entry
reaches resolve_node_id as a dict, on which Python's `ref in graph["nodes"]`
raises TypeError: unhashable — modelled as `Except.error`. -/
def resolveOptionalRefs (g : Graph) (visited : List String) : List Item → Except Unit (List String)
  | [] => .ok []
  | Item.dict _ :: _ => .error ()
  | Item.str s :: rest =>
    match resolveOptionalRefs g visited rest with
    | .error e => .error e
    | .ok tail =>
      match resolve_node_id g s with
      | some rid => if rid = "" ∨ rid ∈ visited then .ok tail else .ok (rid :: tail)
      | none => .ok tail

/-- The while loop of resolve_dependencies, fuel-indexed so that the
definition is executable; `bfs_fuel_sufficient` below shows the fuel chosen
by `resolve_dependencies` always suffices (the loop terminates).  `res`
accumulates visitation order; the final result is its reverse. -/
def bfsLoop (g : Graph) (io : Bool) :
    Nat → List String → List String → List String → Option (Except Unit (List String))
  | 0, [], _, res => some (.ok res.reverse)
  | 0, _ :: _, _, _ => none
  | _ + 1, [], _, res => some (.ok res.reverse)
  | fuel + 1, r :: q, visited, res =>
    if r ∈ visited then bfsLoop g io fuel q visited res
    else
      match lookupNodeFor g r with
      | (none, _) => bfsLoop g io fuel q (r :: visited) res
      | (some node, nid) =>
        let reqIds := newRequireIds g (r :: visited) node
        if io then
          match resolveOptionalRefs g (r :: visited) node.optional with
          | .error e => some (.error e)
          | .ok optIds => bfsLoop g io fuel (q ++ reqIds ++ optIds) (r :: visited) (res ++ [nid])
        else bfsLoop g io fuel (q ++ reqIds) (r :: visited) (res ++ [nid])

/-- Total number of requires/optional entries across the graph; bounds how
many references one dequeued node can enqueue. -/
def degSum (g : Graph) : Nat :=
  (g.nodes.map fun p => p.2.requires.length + p.2.optional.length).sum

/-- Every id that can ever sit in the BFS queue: the entry, the node ids and
the by_path values. -/
def graphIdUniverse (g : Graph) (entry : String) : Finset String :=
  (entry :: (g.nodes.map Prod.fst ++ g.by_path.map Prod.snd)).toFinset

/-- Fuel that provably outlasts the traversal. -/
def resolveFuel (g : Graph) (entry : String) : Nat :=
  (graphIdUniverse g entry).card * (degSum g + 1) + 2

/-- resolve_dependencies from the source: BFS from the entry reference with a
visited set; requires entries are always followed, optional entries only when
include_optional is set.  The result is the visitation order reversed.  The
`.getD` default is never used (see `bfs_fuel_sufficient`). -/
def resolve_dependencies (g : Graph) (entry_id : String) (include_optional : Bool) :
    Except Unit (List String) :=
  (bfsLoop g include_optional (resolveFuel g entry_id) [entry_id] [] []).getD (.ok [])

/- ## Task matching: a model of Python re (classic core), IGNORECASE

The engine below covers the classic regex core exactly as Python 3.11's re
treats it: alternation, grouping — plain, non-capturing (?: and named
(?P<name> —, character classes with ranges, negation and escapes, the
anchors ^ $ \A \Z, the word boundaries \b \B, the dot (which does not match
a newline), the quantifiers * + ? and well-formed braces (malformed braces
are literal text, doubled quantifiers and quantified anchors are errors,
as in re), lazy quantifier markers (equivalent for match existence), and
escape semantics (unknown letter escapes are errors, escaped punctuation is
literal).  Outside the modelled subset and treated as invalid patterns,
although Python accepts them: backreferences, lookarounds, inline flag
groups, conditionals, possessive quantifiers (Python ≥ 3.11) and
\x/\u/\N/octal escapes. -/

/-- The brace characters, written via their code points. -/
def lbrace : Char := Char.ofNat 123

def rbrace : Char := Char.ofNat 125

/-- One member of a character class. -/
inductive RCls where
  | ch (c : Char)
  | range (a b : Char)
  | digit
  | nondigit
  | word
  | nonword
  | space
  | nonspace
deriving DecidableEq

/-- Regular expressions, after desugaring + ? {m,n} into sequences, options
and stars. -/
inductive RE where
  | eps
  | ch (c : Char)
  | dot
  | cls (neg : Bool) (items : List RCls)
  | seq (a b : RE)
  | alt (a b : RE)
  | star (a : RE)
  | lineStart
  | lineEnd
  | strEnd
  | wordB (neg : Bool)
deriving DecidableEq

/-- Python's \w: letters, digits and the underscore. -/
def isWordChar (c : Char) : Bool :=
  c.isAlphanum || c = '_'

/-- Does one class member accept the character, case-insensitively?  Ranges
accept a character when it or one of its case variants falls inside. -/
def clsItemMatch (c : Char) : RCls → Bool
  | RCls.ch d => Char.toLower d = Char.toLower c
  | RCls.range a b =>
    (a ≤ c ∧ c ≤ b) || (a ≤ Char.toLower c ∧ Char.toLower c ≤ b) ||
      (a ≤ Char.toUpper c ∧ Char.toUpper c ≤ b)
  | RCls.digit => c.isDigit
  | RCls.nondigit => !c.isDigit
  | RCls.word => isWordChar c
  | RCls.nonword => !isWordChar c
  | RCls.space => c.isWhitespace
  | RCls.nonspace => !c.isWhitespace

/-- Structural size, used only to bound the matcher's fuel. -/
def reSize : RE → Nat
  | RE.eps => 1
  | RE.ch _ => 1
  | RE.dot => 1
  | RE.cls _ _ => 1
  | RE.seq a b => reSize a + reSize b + 1
  | RE.alt a b => reSize a + reSize b + 1
  | RE.star a => reSize a + 1
  | RE.lineStart => 1
  | RE.lineEnd => 1
  | RE.strEnd => 1
  | RE.wordB _ => 1

/-- Is the character at position i a word character? -/
def wordAt (s : List Char) (i : Nat) : Bool :=
  match s.get? i with
  | some c => isWordChar c
  | none => false

/-- All positions at which a match of r starting at position i can end.
Fuel-indexed; a star only recurses at strictly advanced positions, so the
call depth is bounded by reSize · (length + 2) and the fuel chosen in
searchExists never runs out. -/
def matchEnds : Nat → RE → List Char → Nat → List Nat
  | 0, _, _, _ => []
  | _ + 1, RE.eps, _, i => [i]
  | _ + 1, RE.ch d, s, i =>
    match s.get? i with
    | some c => if Char.toLower d = Char.toLower c then [i + 1] else []
    | none => []
  | _ + 1, RE.dot, s, i =>
    match s.get? i with
    | some c => if c = '\n' then [] else [i + 1]
    | none => []
  | _ + 1, RE.cls neg items, s, i =>
    match s.get? i with
    | some c => if (items.any fun it => clsItemMatch c it) != neg then [i + 1] else []
    | none => []
  | fuel + 1, RE.seq a b, s, i =>
    ((matchEnds fuel a s i).flatMap fun j => matchEnds fuel b s j).dedup
  | fuel + 1, RE.alt a b, s, i =>
    (matchEnds fuel a s i ++ matchEnds fuel b s i).dedup
  | fuel + 1, RE.star a, s, i =>
    (i :: ((matchEnds fuel a s i).filter fun j => i < j).flatMap
      fun j => matchEnds fuel (RE.star a) s j).dedup
  | _ + 1, RE.lineStart, _, i => if i = 0 then [i] else []
  | _ + 1, RE.lineEnd, s, i =>
    if i = s.length ∨ (i + 1 = s.length ∧ s.get? i = some '\n') then [i] else []
  | _ + 1, RE.strEnd, s, i => if i = s.length then [i] else []
  | _ + 1, RE.wordB neg, s, i =>
    let prev := if i = 0 then false else wordAt s (i - 1)
    if (prev != wordAt s i) != neg then [i] else []

/-- re.search existence: some start position admits a match. -/
def searchExists (r : RE) (task : String) : Bool :=
  (List.range (task.data.length + 1)).any fun i =>
    !((matchEnds ((reSize r + 1) * (task.data.length + 2)) r task.data i).isEmpty)

/-- a^n, for brace quantifiers. -/
def rePow (a : RE) : Nat → RE
  | 0 => RE.eps
  | n + 1 => RE.seq a (rePow a n)

/-- Digits of a brace bound. -/
def digitsToNat (l : List Char) : Nat :=
  l.foldl (fun n c => n * 10 + (c.toNat - 48)) 0

/-- Parse the inside of a brace quantifier, after the opening brace: {m},
{m,}, {,n}, {m,n} (missing bounds default to 0 and infinity).  none means
the text is not a well-formed quantifier — in re the brace is then literal
text. -/
def braceSpec (s : List Char) : Option (Nat × Option Nat × List Char) :=
  let d1 := s.takeWhile Char.isDigit
  match s.dropWhile Char.isDigit with
  | [] => none
  | c :: rest =>
    if c = rbrace then
      if d1.isEmpty then none else some (digitsToNat d1, some (digitsToNat d1), rest)
    else if c = ',' then
      let d2 := rest.takeWhile Char.isDigit
      match rest.dropWhile Char.isDigit with
      | [] => none
      | c2 :: rest2 =>
        if c2 = rbrace then
          some (digitsToNat d1, if d2.isEmpty then none else some (digitsToNat d2), rest2)
        else none
    else none

/-- Zero-width atoms cannot be quantified ("nothing to repeat", as in re). -/
def reQuantifiable : RE → Bool
  | RE.lineStart => false
  | RE.lineEnd => false
  | RE.strEnd => false
  | RE.wordB _ => false
  | _ => true

/-- After a quantifier: consume a lazy marker (equivalent for existence) and
reject a second quantifier ("multiple repeat").  A possessive marker is
outside the modelled subset. -/
def finishQuant (q : RE) (rest : List Char) : Option (RE × List Char) :=
  let rest2 := match rest with
    | '?' :: r => r
    | _ => rest
  match rest2 with
  | [] => some (q, rest2)
  | c :: r =>
    if c = '*' ∨ c = '+' ∨ c = '?' then none
    else if c = lbrace then
      match braceSpec r with
      | some _ => none
      | none => some (q, rest2)
    else some (q, rest2)

/-- Attach a quantifier following an atom, when present. -/
def applyQuant (a : RE) (s : List Char) : Option (RE × List Char) :=
  match s with
  | [] => some (a, s)
  | c :: rest =>
    if c = '*' then
      if reQuantifiable a then finishQuant (RE.star a) rest else none
    else if c = '+' then
      if reQuantifiable a then finishQuant (RE.seq a (RE.star a)) rest else none
    else if c = '?' then
      if reQuantifiable a then finishQuant (RE.alt a RE.eps) rest else none
    else if c = lbrace then
      match braceSpec rest with
      | some (m, bound, rest2) =>
        if reQuantifiable a then
          match bound with
          | some n =>
            if n < m then none
            else finishQuant (RE.seq (rePow a m) (rePow (RE.alt a RE.eps) (n - m))) rest2
          | none => finishQuant (RE.seq (rePow a m) (RE.star a)) rest2
        else none
      | none => some (a, s)
    else some (a, s)

/-- One member or range endpoint inside a class: a literal character
(Sum.inl, range-capable) or a predefined class escape (Sum.inr). -/
def clsAtom : List Char → Option ((Char ⊕ RCls) × List Char)
  | [] => none
  | '\\' :: rest =>
    match rest with
    | [] => none
    | c :: r2 =>
      if c = 'd' then some (Sum.inr RCls.digit, r2)
      else if c = 'D' then some (Sum.inr RCls.nondigit, r2)
      else if c = 'w' then some (Sum.inr RCls.word, r2)
      else if c = 'W' then some (Sum.inr RCls.nonword, r2)
      else if c = 's' then some (Sum.inr RCls.space, r2)
      else if c = 'S' then some (Sum.inr RCls.nonspace, r2)
      else if c = 'n' then some (Sum.inl '\n', r2)
      else if c = 't' then some (Sum.inl '\t', r2)
      else if c = 'r' then some (Sum.inl '\r', r2)
      else if c = 'f' then some (Sum.inl (Char.ofNat 12), r2)
      else if c = 'v' then some (Sum.inl (Char.ofNat 11), r2)
      else if c = 'b' then some (Sum.inl (Char.ofNat 8), r2)
      else if c = 'a' then some (Sum.inl (Char.ofNat 7), r2)
      else if c.isAlphanum then none
      else some (Sum.inl c, r2)
  | c :: rest => some (Sum.inl c, rest)

/-- The members of a character class up to the closing bracket; a ']' in
first position is a literal member, a reversed range or a range against a
class escape is an error, a '-' that cannot form a range is literal. -/
def classBody : Nat → Bool → List Char → Option (List RCls × List Char)
  | 0, _, _ => none
  | fuel + 1, first, s =>
    match s with
    | [] => none
    | ']' :: rest =>
      if first then
        match classBody fuel false rest with
        | some (items, r) => some (RCls.ch ']' :: items, r)
        | none => none
      else some ([], rest)
    | _ =>
      match clsAtom s with
      | none => none
      | some (Sum.inr item, rest) =>
        match rest with
        | '-' :: c2 :: r2 =>
          if c2 = ']' then
            match classBody fuel false rest with
            | some (items, r) => some (item :: items, r)
            | none => none
          else
            match classBody fuel false (c2 :: r2) with
            | some (items, r) => some (item :: RCls.ch '-' :: items, r)
            | none => none
        | _ =>
          match classBody fuel false rest with
          | some (items, r) => some (item :: items, r)
          | none => none
      | some (Sum.inl c, rest) =>
        match rest with
        | '-' :: c2 :: r2 =>
          if c2 = ']' then
            match classBody fuel false rest with
            | some (items, r) => some (RCls.ch c :: items, r)
            | none => none
          else
            match clsAtom (c2 :: r2) with
            | some (Sum.inl c2v, r3) =>
              if c ≤ c2v then
                match classBody fuel false r3 with
                | some (items, r) => some (RCls.range c c2v :: items, r)
                | none => none
              else none
            | some (Sum.inr _, _) => none
            | none => none
        | _ =>
          match classBody fuel false rest with
          | some (items, r) => some (RCls.ch c :: items, r)
          | none => none

/-- A bracketed class, after the opening bracket. -/
def parseClass (s : List Char) : Option (RE × List Char) :=
  let p := match s with
    | '^' :: r => (true, r)
    | _ => (false, s)
  match classBody (p.2.length + 1) true p.2 with
  | some (items, rest) => some (RE.cls p.1 items, rest)
  | none => none

/-- Escapes outside classes: predefined classes, zero-width assertions,
control characters, escaped punctuation.  Unknown letter escapes are errors
as in re; digit escapes (backreferences, octal) and \x/\u/\N are outside
the modelled subset. -/
def parseEscape : List Char → Option (RE × List Char)
  | [] => none
  | c :: rest =>
    if c = 'd' then some (RE.cls false [RCls.digit], rest)
    else if c = 'D' then some (RE.cls false [RCls.nondigit], rest)
    else if c = 'w' then some (RE.cls false [RCls.word], rest)
    else if c = 'W' then some (RE.cls false [RCls.nonword], rest)
    else if c = 's' then some (RE.cls false [RCls.space], rest)
    else if c = 'S' then some (RE.cls false [RCls.nonspace], rest)
    else if c = 'b' then some (RE.wordB false, rest)
    else if c = 'B' then some (RE.wordB true, rest)
    else if c = 'A' then some (RE.lineStart, rest)
    else if c = 'Z' then some (RE.strEnd, rest)
    else if c = 'n' then some (RE.ch '\n', rest)
    else if c = 't' then some (RE.ch '\t', rest)
    else if c = 'r' then some (RE.ch '\r', rest)
    else if c = 'f' then some (RE.ch (Char.ofNat 12), rest)
    else if c = 'v' then some (RE.ch (Char.ofNat 11), rest)
    else if c = 'a' then some (RE.ch (Char.ofNat 7), rest)
    else if c.isAlphanum then none
    else some (RE.ch c, rest)

mutual

/-- Alternation: concatenations separated by bars. -/
def parseAlt : Nat → List Char → Option (RE × List Char)
  | 0, _ => none
  | fuel + 1, s =>
    match parseConcat fuel s with
    | none => none
    | some (a, rest) =>
      match rest with
      | '|' :: rest2 =>
        match parseAlt fuel rest2 with
        | some (b, rest3) => some (RE.alt a b, rest3)
        | none => none
      | _ => some (a, rest)

/-- Concatenation: quantified atoms up to a bar, a closing parenthesis or
the end (the empty concatenation is ε, as in re). -/
def parseConcat : Nat → List Char → Option (RE × List Char)
  | 0, _ => none
  | fuel + 1, s =>
    match s with
    | [] => some (RE.eps, [])
    | ')' :: _ => some (RE.eps, s)
    | '|' :: _ => some (RE.eps, s)
    | _ =>
      match parseRepExpr fuel s with
      | none => none
      | some (a, rest) =>
        match parseConcat fuel rest with
        | some (b, rest2) => some (RE.seq a b, rest2)
        | none => none

/-- An atom with its quantifier. -/
def parseRepExpr : Nat → List Char → Option (RE × List Char)
  | 0, _ => none
  | fuel + 1, s =>
    match parseAtom fuel s with
    | none => none
    | some (a, rest) => applyQuant a rest

/-- One atom: a group — plain, (?: or (?P<name> —, a class, the dot, an
anchor, an escape, or a literal character; a quantifier with nothing to
repeat is an error, a brace that is no quantifier is literal, and the
remaining (?… forms are outside the modelled subset. -/
def parseAtom : Nat → List Char → Option (RE × List Char)
  | 0, _ => none
  | fuel + 1, s =>
    match s with
    | [] => none
    | '(' :: rest =>
      match rest with
      | '?' :: ':' :: r2 => parseGroupTail fuel r2
      | '?' :: 'P' :: '<' :: r2 =>
        let name := r2.takeWhile fun c => c ≠ '>'
        if name.isEmpty || !(name.all isWordChar) then none
        else
          match r2.drop name.length with
          | '>' :: r3 => parseGroupTail fuel r3
          | _ => none
      | '?' :: _ => none
      | _ => parseGroupTail fuel rest
    | '[' :: rest => parseClass rest
    | '.' :: rest => some (RE.dot, rest)
    | '^' :: rest => some (RE.lineStart, rest)
    | '$' :: rest => some (RE.lineEnd, rest)
    | '\\' :: rest => parseEscape rest
    | '*' :: _ => none
    | '+' :: _ => none
    | '?' :: _ => none
    | c :: rest =>
      if c = lbrace then
        match braceSpec rest with
        | some _ => none
        | none => some (RE.ch c, rest)
      else some (RE.ch c, rest)

/-- The body of a group up to its closing parenthesis. -/
def parseGroupTail : Nat → List Char → Option (RE × List Char)
  | 0, _ => none
  | fuel + 1, s =>
    match parseAlt fuel s with
    | some (a, ')' :: rest) => some (a, rest)
    | _ => none

end

/-- Compile a pattern; leftover input (an unbalanced parenthesis) is an
error.  The fuel bounds the descent depth, which consumes input or opens a
parenthesis at least every four levels, so it never runs out. -/
def reCompile (p : String) : Option RE :=
  match parseAlt (8 * (p.data.length + 4)) p.data with
  | some (r, []) => some r
  | _ => none

/-- re.search(pattern, task, re.IGNORECASE) over the modelled engine: none
models re.error (an invalid pattern), some b the search outcome. -/
def reSearch (pattern task : String) : Option Bool :=
  (reCompile pattern).map fun r => searchExists r task

/-- Is the character a single or double quote? -/
def isQuoteChar (c : Char) : Bool :=
  c = Char.ofNat 34 ∨ c = Char.ofNat 39

/-- Python pattern.strip of quote characters from both ends. -/
def stripQuotes (s : String) : String :=
  String.mk (((s.data.dropWhile isQuoteChar).reverse.dropWhile isQuoteChar).reverse)

/-- matches_task from the source: empty task or empty pattern never match;
otherwise quotes are stripped from the pattern, a case-insensitive regex
search is attempted, and an invalid pattern falls back to a literal
case-insensitive substring test. -/
def matches_task (pattern task : String) : Bool :=
  if task = "" ∨ pattern = "" then false
  else
    match reSearch (stripQuotes pattern) task with
    | some b => b
    | none =>
      listContainsSub (lowerChars (stripQuotes pattern).data) (lowerChars task.data)

/- ## Optional-dependency selection -/

/-- parse_optional_deps from the source: a plain string is loaded whenever a
task is present; a record is loaded when its "when" pattern matches the task
(missing fields default to "").  Returns (paths_to_load, skipped_paths). -/
def parse_optional_deps (optional_list : List Item) (task : String) :
    List String × List String :=
  optional_list.foldl
    (fun acc item =>
      match item with
      | Item.str s => if task ≠ "" then (acc.1 ++ [s], acc.2) else (acc.1, acc.2 ++ [s])
      | Item.dict d =>
        let path := (d.lookup "path").getD ""
        let pattern := (d.lookup "when").getD ""
        if matches_task pattern task then (acc.1 ++ [path], acc.2)
        else (acc.1, acc.2 ++ [path]))
    ([], [])

/- ## Context Assembler -/

/-- load_external_file: expand the reference and read it; read failures and
missing files are None.  The filesystem is an explicit map. -/
def load_external_file (fs : String → Option String) (path_ref : String) : Option String :=
  fs (expand_path path_ref)

/-- The pill test: some supplied pill occurs, case-insensitively, in the
filename stem of the candidate path. -/
def stemHit (pills : List String) (path : String) : Bool :=
  pills.any fun pill => listContainsSub (lowerChars pill.data) (lowerChars (pathStem path).data)

/-- The path taken from one optional entry in the pills branch, via the
code's opt.get("path", opt) when the entry is a record — a record without a
"path" field yields the dict itself, and Path(dict) then raises; that failure
is the `none` case. -/
def pillPath (opt : Item) : Option String :=
  match opt with
  | Item.str s => some s
  | Item.dict d => d.lookup "path"

/-- Every structured entry of the optional list carries a "path" field (the
shape the data model prescribes; a record without one makes the pill loop
raise mid-node). -/
def optsWellFormed (optional : List Item) : Bool :=
  optional.all fun o =>
    match o with
    | Item.str _ => true
    | Item.dict d => (d.lookup "path").isSome

/-- The explicit-pills branch of the optional scan.  Returns the scheduled
paths, the skipped paths, and whether the loop ran to completion (a record
without "path" raises inside the per-node try block: entries before it keep
their effect, the rest of the node's optional list is abandoned). -/
def selectByPills (pills : List String) : List Item → List String × List String × Bool
  | [] => ([], [], true)
  | opt :: rest =>
    match pillPath opt with
    | none => ([], [], false)
    | some p =>
      let (l, s, ok) := selectByPills pills rest
      if stemHit pills p then (p :: l, s, ok) else (l, p :: s, ok)

/-- The required-external test from build_context: the entry is scheduled
iff it starts with "~/gdrive" or with "/". -/
def requiredExternalCheck (req : String) : Bool :=
  strStartsWith req "~/gdrive" || strStartsWith req "/"

/-- Modelled from the spec: a requires entry points outside the indexed
corpus when it is absolute or home-relative and under none of the corpus
scan roots.  Written from the specification's words for comparison with
`requiredExternalCheck`. -/
def isExternalRequired_spec (ref : String) : Bool :=
  (strStartsWith ref "/" || strStartsWith ref "~/") &&
    ([WORKSPACE ++ "/knowledge", WORKSPACE ++ "/config", WORKSPACE ++ "/routines"].all
      fun root => !(strStartsWith (expand_path ref) (root ++ "/") || expand_path ref == root))

/-- Modelled from the spec: a structured optional entry is selected iff a
case-insensitive regex search of its raw predicate against the task succeeds,
falling back to a literal substring test when the predicate is invalid.
Written from the specification's words for comparison with matches_task. -/
def structSelected_spec (d : List (String × String)) (task : String) : Bool :=
  let predicate := (d.lookup "when").getD ""
  match reSearch predicate task with
  | some b => b
  | none => listContainsSub (lowerChars predicate.data) (lowerChars task.data)

/-- Mutable state threaded through the per-node loop of build_context:
loaded files, the required-external set (insertion-ordered, deduplicated),
the scheduled optional externals and the skipped ones. -/
structure BuildAcc where
  files : List (String × String)
  extReq : List String
  extOpt : List String
  skippedOpt : List String
deriving DecidableEq

/-- One iteration of the per-node loop in build_context: load the node's
file, collect required externals from its requires list, and classify its
optional list by pills (when supplied) or by task. -/
def processNode (fs : String → Option String) (g : Graph) (task : String)
    (pills : List String) (acc : BuildAcc) (node_id : String) : BuildAcc :=
  match g.nodes.lookup node_id with
  | none => acc
  | some node =>
    if node.path = "" then acc
    else
      match fs node.path with
      | none => acc
      | some content =>
        let files' := upsert acc.files node_id content
        let extReq' := node.requires.foldl
          (fun er req =>
            if requiredExternalCheck req ∧ req ∉ er then er ++ [req] else er)
          acc.extReq
        if node.optional.isEmpty then
          { acc with files := files', extReq := extReq' }
        else if pills ≠ [] then
          let (l, s, _ok) := selectByPills pills node.optional
          { files := files', extReq := extReq',
            extOpt := acc.extOpt ++ l, skippedOpt := acc.skippedOpt ++ s }
        else
          let (l, s) := parse_optional_deps node.optional task
          { files := files', extReq := extReq',
            extOpt := acc.extOpt ++ l, skippedOpt := acc.skippedOpt ++ s }

/-- The whole per-node loop. -/
def contextAcc (fs : String → Option String) (g : Graph) (task : String)
    (pills : List String) (deps : List String) : BuildAcc :=
  deps.foldl (processNode fs g task pills) ⟨[], [], [], []⟩

/-- Load a batch of external references, keyed by final filename component;
falsy (empty) contents are skipped, collisions overwrite. -/
def loadExternals (fs : String → Option String) (refs : List String)
    (ef : List (String × String)) : List (String × String) :=
  refs.foldl
    (fun ef ref =>
      match load_external_file fs ref with
      | some content => if content = "" then ef else upsert ef (pathName ref) content
      | none => ef)
    ef

/-- metadata of the entry node in the bundle. -/
structure ContextMetadata where
  type : Option String
  specialist : Option String
  title : Option String
deriving DecidableEq

/-- The context bundle returned by build_context. -/
structure ContextBundle where
  entry : String
  workflow : Option String
  nodes : List String
  files : List (String × String)
  external_files : List (String × String)
  metadata : ContextMetadata
deriving DecidableEq

/-- build_context from the source: resolve the entry (required edges only),
append the workflow's resolution preserving order, run the per-node loop,
load required then optional externals, and read the entry metadata with the
raw entry reference.  The required-only traversal never raises (lemma
`resolve_req_no_error`), so the `.toOption.getD []` mirrors the plain Python
call. -/
def build_context (fs : String → Option String) (g : Graph) (entry_id : String)
    (workflow_id : Option String) (task : String) (pills : List String) : ContextBundle :=
  let entry_deps := (resolve_dependencies g entry_id false).toOption.getD []
  let all_deps :=
    match workflow_id with
    | none => entry_deps
    | some wf =>
      let wf_deps := (resolve_dependencies g wf false).toOption.getD []
      wf_deps.foldl (fun ad dep => if dep ∈ ad then ad else ad ++ [dep]) entry_deps
  let acc := contextAcc fs g task pills all_deps
  let ext := loadExternals fs acc.extOpt (loadExternals fs acc.extReq [])
  let entry_node := g.nodes.lookup entry_id
  { entry := entry_id
    workflow := workflow_id
    nodes := all_deps
    files := acc.files
    external_files := ext
    metadata := ⟨entry_node.map Node.type, entry_node.bind Node.specialist,
                 entry_node.map Node.title⟩ }

/- ## Statements of graph-level claim properties -/

/-- X requires Y, both as node ids. -/
def requiresEdge (g : Graph) (x y : String) : Prop :=
  ∃ n, g.nodes.lookup x = some n ∧ y ∈ n.requires

/-- The requires relation is acyclic: it embeds into a strictly decreasing
rank (for a finite relation this is equivalent to having no cycles). -/
def acyclicRequires (g : Graph) : Prop :=
  ∃ rank : String → Nat, ∀ x y, requiresEdge g x y → rank y < rank x

/-- Position of the first occurrence of x (length of the list when absent). -/
def posOf (x : String) : List String → Nat
  | [] => 0
  | y :: t => if y = x then 0 else posOf x t + 1

/-- The resolver output is topologically ordered: every required node
appears strictly before its dependents. -/
def depsTopoOrdered (g : Graph) (entry : String) : Prop :=
  ∀ out, resolve_dependencies g entry false = Except.ok out →
    ∀ x y, requiresEdge g x y → x ∈ out → y ∈ out → posOf y out < posOf x out

/-- The ordering guarantee claimed for the Dependency Resolver: an acyclic
requires relation makes the result topologically ordered. -/
def c1TopoProperty (g : Graph) (entry : String) : Prop :=
  acyclicRequires g → depsTopoOrdered g entry

/- ## Concrete graphs used by the witnesses and counterexamples -/

/-- Acyclic diamond-ish graph: a requires b and c, c requires b. -/
def g1 : Graph :=
  ⟨[("a", mkNode "a" "spec" "/kb/a.md" ["b", "c"] []),
    ("b", mkNode "b" "spec" "/kb/b.md" [] []),
    ("c", mkNode "c" "spec" "/kb/c.md" ["b"] [])],
   [("a", "b", "requires"), ("a", "c", "requires"), ("c", "b", "requires")],
   [("/kb/a.md", "a"), ("/kb/b.md", "b"), ("/kb/c.md", "c")],
   [("spec", ["a", "b", "c"])]⟩

/-- Two-node requires-cycle a→b→a. -/
def gcyc : Graph :=
  ⟨[("a", mkNode "a" "spec" "/kb/a.md" ["b"] []),
    ("b", mkNode "b" "spec" "/kb/b.md" ["a"] [])],
   [("a", "b", "requires"), ("b", "a", "requires")],
   [("/kb/a.md", "a"), ("/kb/b.md", "b")],
   [("spec", ["a", "b"])]⟩

/-- Same cycle, but resolved through the filename reference "a.md": the raw
reference lands in the visited set while the node id "a" does not. -/
def gdup : Graph :=
  ⟨[("a", mkNode "a" "spec" "/kb/a.md" ["b"] []),
    ("b", mkNode "b" "spec" "/kb/b.md" ["a"] [])],
   [("a", "b", "requires"), ("b", "a", "requires")],
   [("/kb/a.md", "a"), ("/kb/b.md", "b")],
   [("spec", ["a", "b"])]⟩

/-- One node, addressed by filename in the resolver scenarios. -/
def g5 : Graph :=
  ⟨[("a", mkNode "a" "spec" "/kb/a.md" [] [])],
   [],
   [("/kb/a.md", "a")],
   [("spec", ["a"])]⟩

/-- Optional entries for the pill-selection witness. -/
def opts6 : List Item :=
  [Item.str "pills/auth-pill.md",
   Item.dict [("path", "pills/deploy.md"), ("when", "deploy")]]

def g6 : Graph :=
  ⟨[("s", mkNode "s" "specialist" "/kb/s.md" [] opts6)],
   [("s", "pills/auth-pill.md", "optional"), ("s", "pills/deploy.md", "optional")],
   [("/kb/s.md", "s")],
   [("specialist", ["s"])]⟩

def fs6 : String → Option String := fun p =>
  if p = "/kb/s.md" then some "Sdoc"
  else if p = "/home/user/.openclaw/workspace/pills/auth-pill.md" then some "AUTH"
  else if p = "/home/user/.openclaw/workspace/pills/deploy.md" then some "DEPLOY"
  else none

/-- Node with a home-relative required external outside both the corpus
roots and the hardcoded gdrive prefix. -/
def g8 : Graph :=
  ⟨[("a", mkNode "a" "spec" "/kb/a.md" ["~/other/x.md"] [])],
   [("a", "~/other/x.md", "requires")],
   [("/kb/a.md", "a")],
   [("spec", ["a"])]⟩

def fs8 : String → Option String := fun p =>
  if p = "/kb/a.md" then some "Adoc"
  else if p = "/home/user/other/x.md" then some "Xdoc"
  else none

/-- Two nodes with declared metadata, for assembly through the filename
reference "a.md". -/
def g10 : Graph :=
  ⟨[("a", ⟨"a", "specialist", "/kb/a.md", "Node A", some "owner", ["b"], [], []⟩),
    ("b", ⟨"b", "domain", "/kb/b.md", "Node B", none, [], [], []⟩)],
   [("a", "b", "requires")],
   [("/kb/a.md", "a"), ("/kb/b.md", "b")],
   [("specialist", ["a"]), ("domain", ["b"])]⟩

def fs10 : String → Option String := fun p =>
  if p = "/kb/a.md" then some "Adoc"
  else if p = "/kb/b.md" then some "Bdoc"
  else none

/- ## Supporting lemmas: association lists -/

theorem lookup_isSome_iff {α : Type} (l : List (String × α)) (k : String) :
    (List.lookup k l).isSome = true ↔ k ∈ l.map Prod.fst := by
  induction l with
  | nil => simp [List.lookup]
  | cons hd t ih =>
    obtain ⟨a, b⟩ := hd
    by_cases hk : k = a
    · subst hk; simp [List.lookup]
    · simp [List.lookup, beq_eq_false_iff_ne.mpr hk, ih, hk]

theorem lookup_mem_snd {α : Type} {l : List (String × α)} {k : String} {v : α}
    (h : List.lookup k l = some v) : v ∈ l.map Prod.snd := by
  induction l with
  | nil => simp [List.lookup] at h
  | cons hd t ih =>
    obtain ⟨a, b⟩ := hd
    by_cases hk : k = a
    · subst hk
      simp [List.lookup] at h
      simp [h]
    · simp only [List.lookup, beq_eq_false_iff_ne.mpr hk] at h
      simpa using Or.inr (ih h)

theorem lookup_mem_pair {α : Type} {l : List (String × α)} {k : String} {v : α}
    (h : List.lookup k l = some v) : (k, v) ∈ l := by
  induction l with
  | nil => simp [List.lookup] at h
  | cons hd t ih =>
    obtain ⟨a, b⟩ := hd
    by_cases hk : k = a
    · subst hk
      simp [List.lookup] at h
      simp [h]
    · simp only [List.lookup, beq_eq_false_iff_ne.mpr hk] at h
      exact List.mem_cons_of_mem _ (ih h)

theorem lookup_cons_cases {α : Type} {a k : String} {b v : α} {t : List (String × α)}
    (h : List.lookup k ((a, b) :: t) = some v) :
    (k = a ∧ v = b) ∨ List.lookup k t = some v := by
  by_cases hk : k = a
  · subst hk
    simp [List.lookup] at h
    exact Or.inl ⟨rfl, h.symm⟩
  · simp only [List.lookup, beq_eq_false_iff_ne.mpr hk] at h
    exact Or.inr h

/- ## Supporting lemmas: the Reference Resolver -/

theorem resolve_mem {g : Graph} {a rid : String} (h : resolve_node_id g a = some rid) :
    rid ∈ g.nodes.map Prod.fst ∨ rid ∈ g.by_path.map Prod.snd := by
  unfold resolve_node_id at h
  by_cases h1 : (g.nodes.lookup a).isSome = true
  · rw [if_pos h1] at h
    cases h
    exact Or.inl ((lookup_isSome_iff _ _).mp h1)
  · rw [if_neg h1] at h
    cases h2 : List.lookup (expand_path a) g.by_path with
    | some nid =>
      simp only [h2] at h
      cases h
      exact Or.inr (lookup_mem_snd h2)
    | none =>
      simp only [h2] at h
      obtain ⟨pr, hpr, hsnd⟩ := Option.map_eq_some'.mp h
      subst hsnd
      exact Or.inr (List.mem_map.mpr ⟨pr, List.mem_of_find?_eq_some hpr, rfl⟩)

theorem resolve_lookup_isSome {g : Graph}
    (hwf : ∀ pr ∈ g.by_path, (g.nodes.lookup pr.2).isSome = true)
    {a rid : String} (h : resolve_node_id g a = some rid) :
    (g.nodes.lookup rid).isSome = true := by
  unfold resolve_node_id at h
  by_cases h1 : (g.nodes.lookup a).isSome = true
  · rw [if_pos h1] at h
    cases h
    exact h1
  · rw [if_neg h1] at h
    cases h2 : List.lookup (expand_path a) g.by_path with
    | some nid =>
      simp only [h2] at h
      cases h
      exact hwf (expand_path a, rid) (lookup_mem_pair h2)
    | none =>
      simp only [h2] at h
      obtain ⟨pr, hpr, hsnd⟩ := Option.map_eq_some'.mp h
      subst hsnd
      exact hwf pr (List.mem_of_find?_eq_some hpr)

/- ## Supporting lemmas: the BFS loop -/

theorem lookupNodeFor_of_isSome {g : Graph} {r : String} {n : Node}
    (h : g.nodes.lookup r = some n) : lookupNodeFor g r = (some n, r) := by
  unfold lookupNodeFor
  rw [h]

theorem newRequireIds_sources {g : Graph} {v : List String} {node : Node} {x : String}
    (h : x ∈ newRequireIds g v node) :
    (∃ s, resolve_node_id g s = some x) ∧ x ∉ v := by
  unfold newRequireIds at h
  obtain ⟨req, _hreq, hmap⟩ := List.mem_filterMap.mp h
  cases hr : resolve_node_id g req with
  | none => simp only [hr] at hmap; cases hmap
  | some rid =>
    simp only [hr] at hmap
    by_cases hc : rid = "" ∨ rid ∈ v
    · rw [if_pos hc] at hmap; cases hmap
    · rw [if_neg hc] at hmap
      cases hmap
      push_neg at hc
      exact ⟨⟨req, hr⟩, hc.2⟩

theorem newRequireIds_length {g : Graph} {v : List String} {node : Node} :
    (newRequireIds g v node).length ≤ node.requires.length :=
  List.length_filterMap_le _ _

theorem resolveOptionalRefs_sources {g : Graph} {v : List String} :
    ∀ (items : List Item) (l : List String),
      resolveOptionalRefs g v items = Except.ok l →
      ∀ x ∈ l, (∃ s, resolve_node_id g s = some x) ∧ x ∉ v := by
  intro items
  induction items with
  | nil =>
    intro l h x hx
    unfold resolveOptionalRefs at h
    cases h
    simp at hx
  | cons it rest ih =>
    intro l h x hx
    cases it with
    | dict d =>
      unfold resolveOptionalRefs at h
      cases h
    | str s =>
      unfold resolveOptionalRefs at h
      cases htail : resolveOptionalRefs g v rest with
      | error e => simp only [htail] at h; cases h
      | ok tail =>
        simp only [htail] at h
        cases hr : resolve_node_id g s with
        | none =>
          simp only [hr] at h
          have hl : l = tail := (Except.ok.inj h).symm
          rw [hl] at hx
          exact ih tail htail x hx
        | some rid =>
          simp only [hr] at h
          by_cases hc : rid = "" ∨ rid ∈ v
          · rw [if_pos hc] at h
            have hl : l = tail := (Except.ok.inj h).symm
            rw [hl] at hx
            exact ih tail htail x hx
          · rw [if_neg hc] at h
            have hl : l = rid :: tail := (Except.ok.inj h).symm
            rw [hl] at hx
            push_neg at hc
            rcases List.mem_cons.mp hx with hx' | hx'
            · subst hx'
              exact ⟨⟨s, hr⟩, hc.2⟩
            · exact ih tail htail x hx'

theorem resolveOptionalRefs_length {g : Graph} {v : List String} :
    ∀ (items : List Item) (l : List String),
      resolveOptionalRefs g v items = Except.ok l → l.length ≤ items.length := by
  intro items
  induction items with
  | nil =>
    intro l h
    unfold resolveOptionalRefs at h
    cases h
    simp
  | cons it rest ih =>
    intro l h
    cases it with
    | dict d =>
      unfold resolveOptionalRefs at h
      cases h
    | str s =>
      unfold resolveOptionalRefs at h
      cases htail : resolveOptionalRefs g v rest with
      | error e => simp only [htail] at h; cases h
      | ok tail =>
        simp only [htail] at h
        have htl := ih tail htail
        cases hr : resolve_node_id g s with
        | none =>
          simp only [hr] at h
          rw [(Except.ok.inj h).symm]
          exact htl.trans (Nat.le_succ _)
        | some rid =>
          simp only [hr] at h
          by_cases hc : rid = "" ∨ rid ∈ v
          · rw [if_pos hc] at h
            rw [(Except.ok.inj h).symm]
            exact htl.trans (Nat.le_succ _)
          · rw [if_neg hc] at h
            rw [(Except.ok.inj h).symm]
            simpa using Nat.succ_le_succ htl

theorem deg_le_degSum {g : Graph} {node : Node} (h : node ∈ g.nodes.map Prod.snd) :
    node.requires.length + node.optional.length ≤ degSum g := by
  unfold degSum
  obtain ⟨p, hp, hpn⟩ := List.mem_map.mp h
  have hmem : node.requires.length + node.optional.length ∈
      g.nodes.map fun q => q.2.requires.length + q.2.optional.length :=
    List.mem_map.mpr ⟨p, hp, by rw [hpn]⟩
  exact List.single_le_sum (fun x _ => Nat.zero_le x) _ hmem

theorem lookupNodeFor_node_mem {g : Graph} {r : String} {node : Node} {nid : String}
    (h : lookupNodeFor g r = (some node, nid)) : node ∈ g.nodes.map Prod.snd := by
  unfold lookupNodeFor at h
  cases h1 : g.nodes.lookup r with
  | some n =>
    simp only [h1] at h
    obtain ⟨h2, _⟩ := Prod.mk.inj h
    cases h2
    exact lookup_mem_snd h1
  | none =>
    simp only [h1] at h
    cases h2 : resolve_node_id g r with
    | none =>
      simp only [h2] at h
      cases (Prod.mk.inj h).1
    | some rid =>
      simp only [h2] at h
      by_cases he : rid = ""
      · rw [if_pos he] at h
        cases (Prod.mk.inj h).1
      · rw [if_neg he] at h
        cases h3 : g.nodes.lookup rid with
        | none =>
          rw [h3] at h
          cases (Prod.mk.inj h).1
        | some n =>
          rw [h3] at h
          obtain ⟨h4, _⟩ := Prod.mk.inj h
          cases h4
          exact lookup_mem_snd h3

theorem card_mul_le {C C' D : Nat} (h1 : C' + 1 ≤ C) :
    C' * (D + 1) + (D + 1) ≤ C * (D + 1) := by
  calc C' * (D + 1) + (D + 1) = (C' + 1) * (D + 1) := by ring
    _ ≤ C * (D + 1) := mul_le_mul_right' h1 (D + 1)

theorem bfsLoop_isSome (g : Graph) (io : Bool) (U : Finset String)
    (hU : ∀ x, (x ∈ g.nodes.map Prod.fst ∨ x ∈ g.by_path.map Prod.snd) → x ∈ U) :
    ∀ (fuel : Nat) (q visited res : List String),
      (∀ x ∈ q, x ∈ U) →
      (U \ visited.toFinset).card * (degSum g + 1) + q.length < fuel →
      (bfsLoop g io fuel q visited res).isSome = true := by
  intro fuel
  induction fuel with
  | zero => intro q visited res _ hlt; exact absurd hlt (Nat.not_lt_zero _)
  | succ fuel ih =>
    intro q visited res hq hlt
    cases q with
    | nil => simp [bfsLoop]
    | cons r q' =>
      have hrU : r ∈ U := hq r (List.mem_cons_self r q')
      simp only [bfsLoop]
      by_cases hv : r ∈ visited
      · rw [if_pos hv]
        apply ih q' visited res (fun x hx => hq x (List.mem_cons_of_mem _ hx))
        simp only [List.length_cons] at hlt
        linarith
      · rw [if_neg hv]
        have hss : U \ (r :: visited).toFinset ⊂ U \ visited.toFinset := by
          rw [List.toFinset_cons]
          refine (Finset.ssubset_iff_of_subset
            (Finset.sdiff_subset_sdiff (Finset.Subset.refl U)
              (Finset.subset_insert r visited.toFinset))).mpr ?_
          exact ⟨r, Finset.mem_sdiff.mpr ⟨hrU, by simpa using hv⟩,
                 fun hmem => (Finset.mem_sdiff.mp hmem).2 (Finset.mem_insert_self r _)⟩
        have hC : (U \ (r :: visited).toFinset).card + 1 ≤ (U \ visited.toFinset).card :=
          Nat.succ_le_of_lt (Finset.card_lt_card hss)
        have h4 := card_mul_le (D := degSum g) hC
        cases hlk : lookupNodeFor g r with
        | mk nodeOpt nid =>
          cases nodeOpt with
          | none =>
            dsimp only
            apply ih q' (r :: visited) res (fun x hx => hq x (List.mem_cons_of_mem _ hx))
            simp only [List.length_cons] at hlt
            linarith
          | some node =>
            dsimp only
            have hnodeMem : node ∈ g.nodes.map Prod.snd := lookupNodeFor_node_mem hlk
            have hdeg := deg_le_degSum hnodeMem
            have hreqLen : (newRequireIds g (r :: visited) node).length ≤ node.requires.length :=
              newRequireIds_length
            have hreqU : ∀ x ∈ newRequireIds g (r :: visited) node, x ∈ U := by
              intro x hx
              obtain ⟨⟨s, hs⟩, _⟩ := newRequireIds_sources hx
              exact hU x (resolve_mem hs)
            cases io with
            | false =>
              apply ih (q' ++ newRequireIds g (r :: visited) node) (r :: visited) (res ++ [nid]) ?_ ?_
              · intro x hx
                rcases List.mem_append.mp hx with hx | hx
                · exact hq x (List.mem_cons_of_mem _ hx)
                · exact hreqU x hx
              · simp only [List.length_append, List.length_cons] at hlt ⊢
                linarith
            | true =>
              cases hopt : resolveOptionalRefs g (r :: visited) node.optional with
              | error e => simp
              | ok optIds =>
                have hoptLen := resolveOptionalRefs_length (g := g) (v := r :: visited)
                  node.optional optIds hopt
                apply ih (q' ++ newRequireIds g (r :: visited) node ++ optIds)
                  (r :: visited) (res ++ [nid]) ?_ ?_
                · intro x hx
                  rcases List.mem_append.mp hx with hx | hx
                  · rcases List.mem_append.mp hx with hx | hx
                    · exact hq x (List.mem_cons_of_mem _ hx)
                    · exact hreqU x hx
                  · obtain ⟨⟨s, hs⟩, _⟩ := resolveOptionalRefs_sources _ _ hopt x hx
                    exact hU x (resolve_mem hs)
                · simp only [List.length_append, List.length_cons] at hlt ⊢
                  linarith

theorem bfs_fuel_sufficient (g : Graph) (io : Bool) (e : String) :
    (bfsLoop g io (resolveFuel g e) [e] [] []).isSome = true := by
  apply bfsLoop_isSome g io (graphIdUniverse g e) ?_ (resolveFuel g e) [e] [] [] ?_ ?_
  · intro x hx
    unfold graphIdUniverse
    rcases hx with hx | hx
    · simp [hx]
    · simp [hx]
  · intro x hx
    simp only [List.mem_singleton] at hx
    subst hx
    unfold graphIdUniverse
    simp
  · unfold resolveFuel
    simp

theorem bfsLoop_false_no_error (g : Graph) :
    ∀ (fuel : Nat) (q visited res : List String) (err : Unit),
      bfsLoop g false fuel q visited res ≠ some (Except.error err) := by
  intro fuel
  induction fuel with
  | zero =>
    intro q visited res err h
    cases q with
    | nil => simp [bfsLoop] at h
    | cons r q' => simp [bfsLoop] at h
  | succ fuel ih =>
    intro q visited res err h
    cases q with
    | nil => simp [bfsLoop] at h
    | cons r q' =>
      simp only [bfsLoop] at h
      by_cases hv : r ∈ visited
      · rw [if_pos hv] at h
        exact ih q' visited res err h
      · rw [if_neg hv] at h
        cases hlk : lookupNodeFor g r with
        | mk nodeOpt nid =>
          cases nodeOpt with
          | none =>
            simp only [hlk] at h
            exact ih _ _ _ err h
          | some node =>
            simp only [hlk, Bool.false_eq_true, if_false] at h
            exact ih _ _ _ err h

/-- The required-only traversal used by build_context never raises: with the
optional flag off, resolve_dependencies always returns a list. -/
theorem resolve_req_no_error (g : Graph) (e : String) :
    ∀ err : Unit, resolve_dependencies g e false ≠ Except.error err := by
  intro err hr
  obtain ⟨x, hx⟩ := Option.isSome_iff_exists.mp (bfs_fuel_sufficient g false e)
  unfold resolve_dependencies at hr
  rw [hx] at hr
  simp only [Option.getD_some] at hr
  rw [hr] at hx
  exact bfsLoop_false_no_error g (resolveFuel g e) [e] [] [] err hx

theorem resolve_ok_bfs {g : Graph} {io : Bool} {e : String} {out : List String}
    (hr : resolve_dependencies g e io = Except.ok out) :
    bfsLoop g io (resolveFuel g e) [e] [] [] = some (Except.ok out) := by
  obtain ⟨x, hx⟩ := Option.isSome_iff_exists.mp (bfs_fuel_sufficient g io e)
  unfold resolve_dependencies at hr
  rw [hx] at hr
  simp only [Option.getD_some] at hr
  rw [hx, hr]

theorem bfsLoop_ok_structure (g : Graph) (io : Bool)
    (hwf : ∀ pr ∈ g.by_path, (g.nodes.lookup pr.2).isSome = true) :
    ∀ (fuel : Nat) (q visited res : List String) (out : List String),
      (∀ x ∈ q, (g.nodes.lookup x).isSome = true) →
      bfsLoop g io fuel q visited res = some (Except.ok out) →
      ∃ ext, out = (res ++ ext).reverse ∧ ext.Nodup ∧ ∀ x ∈ ext, x ∉ visited := by
  intro fuel
  induction fuel with
  | zero =>
    intro q visited res out hq h
    cases q with
    | nil =>
      simp only [bfsLoop] at h
      have hout : out = res.reverse := (Except.ok.inj (Option.some.inj h)).symm
      exact ⟨[], by simp [hout], List.nodup_nil, by simp⟩
    | cons r q' => simp [bfsLoop] at h
  | succ fuel ih =>
    intro q visited res out hq h
    cases q with
    | nil =>
      simp only [bfsLoop] at h
      have hout : out = res.reverse := (Except.ok.inj (Option.some.inj h)).symm
      exact ⟨[], by simp [hout], List.nodup_nil, by simp⟩
    | cons r q' =>
      simp only [bfsLoop] at h
      by_cases hv : r ∈ visited
      · rw [if_pos hv] at h
        exact ih q' visited res out (fun x hx => hq x (List.mem_cons_of_mem _ hx)) h
      · rw [if_neg hv] at h
        obtain ⟨n, hn⟩ := Option.isSome_iff_exists.mp (hq r (List.mem_cons_self r q'))
        simp only [lookupNodeFor_of_isSome hn] at h
        have hreqMem : ∀ x ∈ newRequireIds g (r :: visited) n, (g.nodes.lookup x).isSome = true := by
          intro x hx
          obtain ⟨⟨s, hs⟩, _⟩ := newRequireIds_sources hx
          exact resolve_lookup_isSome hwf hs
        cases io with
        | false =>
          simp only [Bool.false_eq_true, if_false] at h
          have hqnext : ∀ x ∈ q' ++ newRequireIds g (r :: visited) n,
              (g.nodes.lookup x).isSome = true := by
            intro x hx
            rcases List.mem_append.mp hx with hx | hx
            · exact hq x (List.mem_cons_of_mem _ hx)
            · exact hreqMem x hx
          obtain ⟨ext, hout, hnd, hni⟩ := ih _ _ _ _ hqnext h
          refine ⟨r :: ext, ?_, ?_, ?_⟩
          · rw [hout]
            simp [List.append_assoc]
          · refine List.nodup_cons.mpr ⟨?_, hnd⟩
            intro hmem
            exact hni r hmem (List.mem_cons_self r visited)
          · intro x hx
            rcases List.mem_cons.mp hx with hx | hx
            · subst hx; exact hv
            · intro hxv
              exact hni x hx (List.mem_cons_of_mem _ hxv)
        | true =>
          simp only [if_true] at h
          cases hopt : resolveOptionalRefs g (r :: visited) n.optional with
          | error e =>
            rw [hopt] at h
            cases Option.some.inj h
          | ok optIds =>
            rw [hopt] at h
            have hqnext : ∀ x ∈ q' ++ newRequireIds g (r :: visited) n ++ optIds,
                (g.nodes.lookup x).isSome = true := by
              intro x hx
              rcases List.mem_append.mp hx with hx | hx
              · rcases List.mem_append.mp hx with hx | hx
                · exact hq x (List.mem_cons_of_mem _ hx)
                · exact hreqMem x hx
              · obtain ⟨⟨s, hs⟩, _⟩ := resolveOptionalRefs_sources _ _ hopt x hx
                exact resolve_lookup_isSome hwf hs
            obtain ⟨ext, hout, hnd, hni⟩ := ih _ _ _ _ hqnext h
            refine ⟨r :: ext, ?_, ?_, ?_⟩
            · rw [hout]
              simp [List.append_assoc]
            · refine List.nodup_cons.mpr ⟨?_, hnd⟩
              intro hmem
              exact hni r hmem (List.mem_cons_self r visited)
            · intro x hx
              rcases List.mem_cons.mp hx with hx | hx
              · subst hx; exact hv
              · intro hxv
                exact hni x hx (List.mem_cons_of_mem _ hxv)

/- ## Claim C3: termination and multiplicity of the Dependency Resolver -/

/-- Claim C3 (counterexample): for the two-node requires-cycle a→b→a indexed
under /kb/a.md and /kb/b.md, resolving the reference "a.md" terminates but
returns the node id "a" twice — the visited set records the raw dequeued
reference while the resolved id is appended — so "each node id occurs at most
once in the result" fails for this Graph Index. -/
theorem resolve_duplicate_cex :
    resolve_dependencies gdup "a.md" false = Except.ok ["a", "b", "a"] ∧
    ¬ (["a", "b", "a"] : List String).Nodup :=
  ⟨by decide, by decide⟩

/-- Claim C3 (amended): for every Graph Index and include-optional flag the
Dependency Resolver terminates (the fuel chosen by resolve_dependencies
always suffices, cycles included); when the entry reference is a node id and
every by_path value is a node id, each node id occurs at most once in the
result; in particular, for the two-node requires-cycle a→b→a, resolving the
id "a" returns exactly ["b", "a"], each node once. -/
theorem resolve_terminates_nodup :
    (∀ (g : Graph) (io : Bool) (e : String),
        (bfsLoop g io (resolveFuel g e) [e] [] []).isSome = true) ∧
    (∀ (g : Graph) (io : Bool) (e : String) (out : List String),
        (∀ pr ∈ g.by_path, (g.nodes.lookup pr.2).isSome = true) →
        (g.nodes.lookup e).isSome = true →
        resolve_dependencies g e io = Except.ok out → out.Nodup) ∧
    resolve_dependencies gcyc "a" false = Except.ok ["b", "a"] := by
  refine ⟨bfs_fuel_sufficient, ?_, by decide⟩
  intro g io e out hwf he hr
  have hb := resolve_ok_bfs hr
  have hq1 : ∀ x ∈ [e], (g.nodes.lookup x).isSome = true := by
    intro x hx
    simp only [List.mem_singleton] at hx
    subst hx
    exact he
  obtain ⟨ext, hout, hnd, _⟩ := bfsLoop_ok_structure g io hwf _ _ _ _ _ hq1 hb
  rw [hout]
  simpa using hnd

/-- Witness for resolve_terminates_nodup at the concrete cycle graph. -/
theorem resolve_terminates_nodup_witness :
    (bfsLoop gcyc false (resolveFuel gcyc "a") ["a"] [] []).isSome = true ∧
    (["b", "a"] : List String).Nodup ∧
    resolve_dependencies gcyc "a" false = Except.ok ["b", "a"] :=
  ⟨resolve_terminates_nodup.1 gcyc false "a",
   resolve_terminates_nodup.2.1 gcyc false "a" ["b", "a"] (by decide) (by decide)
     resolve_terminates_nodup.2.2,
   resolve_terminates_nodup.2.2⟩

/- ## Claim C1: ordering of the Dependency Resolver output -/

/-- Claim C1 (counterexample): the graph g1 — a requires [b, c], c requires
[b] — is acyclic, yet resolving "a" yields ["c", "b", "a"] in which the
required node b appears strictly after its dependent c: breadth-first
visitation order reversed is not a topological order. -/
theorem resolve_not_topo_cex : ¬ c1TopoProperty g1 "a" := by
  intro hclaim
  have hac : acyclicRequires g1 := by
    refine ⟨fun s => if s = "a" then 2 else if s = "c" then 1 else 0, ?_⟩
    intro x y hxy
    obtain ⟨n, hl, hy⟩ := hxy
    rw [show g1.nodes = [("a", mkNode "a" "spec" "/kb/a.md" ["b", "c"] []),
      ("b", mkNode "b" "spec" "/kb/b.md" [] []),
      ("c", mkNode "c" "spec" "/kb/c.md" ["b"] [])] from rfl] at hl
    rcases lookup_cons_cases hl with ⟨rfl, rfl⟩ | hl2
    · simp [mkNode] at hy
      rcases hy with rfl | rfl <;> decide
    rcases lookup_cons_cases hl2 with ⟨rfl, rfl⟩ | hl3
    · simp [mkNode] at hy
    rcases lookup_cons_cases hl3 with ⟨rfl, rfl⟩ | hl4
    · simp [mkNode] at hy
      subst hy
      decide
    · simp [List.lookup] at hl4
  have hedge : requiresEdge g1 "c" "b" :=
    ⟨mkNode "c" "spec" "/kb/c.md" ["b"] [], by decide, by decide⟩
  have hres := hclaim hac ["c", "b", "a"] (by decide) "c" "b" hedge (by decide) (by decide)
  exact absurd hres (by decide)

/-- Claim C1 (amended): when the entry reference is a node id and every
by_path value is a node id, the resolver output ends with the entry node and
every other returned node appears strictly before it — in particular every
resolved direct requirement of the entry precedes it.  The per-edge
topological guarantee for all nodes does not hold (resolve_not_topo_cex). -/
theorem resolve_entry_last :
    ∀ (g : Graph) (e : String) (out : List String),
      (∀ pr ∈ g.by_path, (g.nodes.lookup pr.2).isSome = true) →
      (g.nodes.lookup e).isSome = true →
      resolve_dependencies g e false = Except.ok out →
      ∃ l, out = l ++ [e] ∧ e ∉ l := by
  intro g e out hwf he hr
  have hb := resolve_ok_bfs hr
  obtain ⟨n, hn⟩ := Option.isSome_iff_exists.mp he
  rw [show resolveFuel g e = ((graphIdUniverse g e).card * (degSum g + 1) + 1) + 1 from rfl] at hb
  simp only [bfsLoop] at hb
  rw [if_neg (List.not_mem_nil e)] at hb
  simp only [lookupNodeFor_of_isSome hn] at hb
  simp only [Bool.false_eq_true, if_false] at hb
  have hq1 : ∀ x ∈ ([] : List String) ++ newRequireIds g [e] n,
      (g.nodes.lookup x).isSome = true := by
    intro x hx
    simp only [List.nil_append] at hx
    obtain ⟨⟨s, hs⟩, _⟩ := newRequireIds_sources hx
    exact resolve_lookup_isSome hwf hs
  obtain ⟨ext, hout, hnd, hni⟩ := bfsLoop_ok_structure g false hwf _ _ _ _ _ hq1 hb
  refine ⟨ext.reverse, ?_, ?_⟩
  · rw [hout]
    simp
  · intro hmem
    rw [List.mem_reverse] at hmem
    exact hni e hmem (List.mem_singleton_self e)

/-- Witness for resolve_entry_last at the acyclic graph g1. -/
theorem resolve_entry_last_witness :
    ∃ l, ["c", "b", "a"] = l ++ ["a"] ∧ "a" ∉ l :=
  resolve_entry_last g1 "a" ["c", "b", "a"] (by decide) (by decide) (by decide)

/- ## Claim C2: the Header Parser body -/

/-- Claim C2 (counterexample): on "---\na: b\n---\nBODY" — a well-formed
header block whose closing marker line is immediately followed by the body —
the parser returns "ODY", not the full text "BODY" after the closing marker
line: content[end_match.end() + 3 + 1:] drops one extra character. -/
theorem frontmatter_body_cex :
    bodyAfterClosing "---\na: b\n---\nBODY" = some "BODY" ∧
    (parse_frontmatter "---\na: b\n---\nBODY").2 = "ODY" ∧
    ("ODY" : String) ≠ "BODY" :=
  ⟨by decide, by decide, by decide⟩

/-- Claim C2 (amended): for every document with a well-formed header block,
the body returned by the Header Parser is the document text that follows the
closing marker line with its first character removed (in the usual layout a
blank line separates the header from the body and only that separator is
consumed; otherwise the body's first character is lost). -/
theorem frontmatter_body_drop_one :
    ∀ (content b : String), bodyAfterClosing content = some b →
      (parse_frontmatter content).2 = String.mk (b.data.drop 1) := by
  intro content b h
  unfold bodyAfterClosing at h
  by_cases hs : strStartsWith content "---" = true
  · rw [if_pos hs] at h
    cases hf : findSubIdx closingMarker (content.data.drop 3) with
    | none => rw [hf] at h; cases h
    | some i =>
      rw [hf] at h
      have hb : String.mk (content.data.drop (i + 8)) = b := Option.some.inj h
      unfold parse_frontmatter
      rw [if_neg (by simp [hs]), hf]
      simp only []
      rw [← hb]
      simp only [List.drop_drop]
  · rw [if_neg hs] at h
    cases h

/-- Witness for frontmatter_body_drop_one on a concrete document. -/
theorem frontmatter_body_drop_one_witness :
    (parse_frontmatter "---\na: b\n---\nBODY").2 = String.mk (("BODY" : String).data.drop 1) :=
  frontmatter_body_drop_one "---\na: b\n---\nBODY" "BODY" (by decide)

/- ## Claim C4: the Header Parser fails open -/

/-- Claim C4: the Header Parser is a total function of the input text; when
the input does not start with the opening marker, or no closing "\n---\n"
follows, it returns the empty metadata map and the whole input as the body. -/
theorem frontmatter_fail_open :
    ∀ content : String,
      (strStartsWith content "---" = false → parse_frontmatter content = ([], content)) ∧
      (findSubIdx closingMarker (content.data.drop 3) = none →
        parse_frontmatter content = ([], content)) := by
  intro content
  constructor
  · intro h
    unfold parse_frontmatter
    rw [if_pos h]
  · intro h
    unfold parse_frontmatter
    by_cases hs : strStartsWith content "---" = false
    · rw [if_pos hs]
    · rw [if_neg hs, h]

/-- Witness for frontmatter_fail_open: a document with no header and a
document whose header block never closes. -/
theorem frontmatter_fail_open_witness :
    parse_frontmatter "plain text, no header" = ([], "plain text, no header") ∧
    parse_frontmatter "---\nid: x\nnever closed" = ([], "---\nid: x\nnever closed") :=
  ⟨(frontmatter_fail_open "plain text, no header").1 (by decide),
   (frontmatter_fail_open "---\nid: x\nnever closed").2 (by decide)⟩

/- ## Claim C5: the Reference Resolver priority -/

/-- Supporting lemma: the priority structure of the simplified resolver
(the one the rest of the development uses), stated for each clause. -/
theorem resolve_reference_priority :
    ∀ (g : Graph) (ref : String),
      ((g.nodes.lookup ref).isSome = true → resolve_node_id g ref = some ref) ∧
      ((g.nodes.lookup ref).isSome = false →
        ∀ nid, g.by_path.lookup (expand_path ref) = some nid →
          resolve_node_id g ref = some nid) ∧
      ((g.nodes.lookup ref).isSome = false →
        g.by_path.lookup (expand_path ref) = none →
        ∀ pr, g.by_path.find? (fun pr => strEndsWith pr.1 ref || pathName pr.1 == ref) = some pr →
          resolve_node_id g ref = some pr.2) ∧
      ((g.nodes.lookup ref).isSome = false →
        g.by_path.lookup (expand_path ref) = none →
        g.by_path.find? (fun pr => strEndsWith pr.1 ref || pathName pr.1 == ref) = none →
        resolve_node_id g ref = none) := by
  intro g ref
  refine ⟨?_, ?_, ?_, ?_⟩
  · intro h1
    unfold resolve_node_id
    rw [if_pos h1]
  · intro h1 nid h2
    unfold resolve_node_id
    rw [if_neg (by simp [h1]), h2]
  · intro h1 h2 pr h3
    unfold resolve_node_id
    rw [if_neg (by simp [h1]), h2, h3]
    rfl
  · intro h1 h2 h3
    unfold resolve_node_id
    rw [if_neg (by simp [h1]), h2, h3]
    rfl

/-- Concrete instance of resolve_reference_priority: no node has id "a.md",
node a's backing path /kb/a.md ends with "a.md", and the reference "a.md"
resolves to node a through the suffix clause. -/
theorem resolve_reference_priority_witness :
    (g5.nodes.lookup "a.md").isSome = false ∧
    g5.by_path.lookup (expand_path "a.md") = none ∧
    resolve_node_id g5 "a.md" = some "a" := by
  refine ⟨by decide, by decide, ?_⟩
  have h := (resolve_reference_priority g5 "a.md").2.2.1 (by decide) (by decide)
    ("/kb/a.md", "a") (by decide)
  exact h

/-- Supporting lemma: away from bare "~name" references the expansion never
consults the user database and never fails — expand_path_env returns exactly
the simplified expansion, whatever the database holds. -/
theorem expand_path_env_agrees (users : String → Option String) (p : String)
    (h : strStartsWith p "~" = true → strStartsWith p "~/" = true ∨ p = "~") :
    expand_path_env users p = Except.ok (expand_path p) := by
  unfold expand_path_env expand_path
  by_cases h1 : strStartsWith p "~/" = true
  · rw [if_pos h1, if_pos h1]
  · rw [if_neg h1, if_neg h1]
    by_cases h2 : strStartsWith p "~" = true
    · have hp : p = "~" := (h h2).resolve_left h1
      subst hp
      rfl
    · have hne : ¬ (p = "~") := by
        intro hp
        subst hp
        exact h2 (by decide)
      rw [if_neg h2, if_neg hne, if_neg h2]
      by_cases h3 : strStartsWith p "/" = false
      · rw [if_pos h3, if_pos h3]
      · rw [if_neg h3, if_neg h3]

/-- Supporting lemma: resolve_node_id_env agrees with the simplified
resolver on every reference that is not a bare "~name" form. -/
theorem resolve_node_id_env_agrees (users : String → Option String) (g : Graph) (ref : String)
    (h : strStartsWith ref "~" = true → strStartsWith ref "~/" = true ∨ ref = "~") :
    resolve_node_id_env users g ref = Except.ok (resolve_node_id g ref) := by
  unfold resolve_node_id_env resolve_node_id
  by_cases h1 : (g.nodes.lookup ref).isSome = true
  · rw [if_pos h1, if_pos h1]
  · rw [if_neg h1, if_neg h1]
    rw [expand_path_env_agrees users ref h]
    cases hb : g.by_path.lookup (expand_path ref) <;> simp only [hb]

/-- Claim C5 (counterexample): the reference "~nobody/x.md" is no node id of
g5, and with no user named nobody in the system database Path.expanduser
raises RuntimeError, which propagates out of resolve_node_id — the claimed
universal "returns the unresolved result (None) rather than raising" fails
on unknown-user home references. -/
theorem resolve_unknown_user_cex :
    (g5.nodes.lookup "~nobody/x.md").isSome = false ∧
    resolve_node_id_env (fun _ => none) g5 "~nobody/x.md" = Except.error () :=
  ⟨by decide, by decide⟩

/-- Claim C5 (amended): whenever the reference expansion succeeds,
resolve_node_id applies exactly the claimed priority, first match winning —
(1) a node-id reference resolves to itself, (2) a reference whose expansion
is an indexed backing path resolves to that path's node id, (3) the first
indexed path that ends with the reference or whose final component equals it
resolves to that path's node id, (4) otherwise None; but when the reference
is an unknown "~name" form the expansion raises and the error propagates
instead of the unresolved result. -/
theorem resolve_reference_priority_env :
    ∀ (users : String → Option String) (g : Graph) (ref : String),
      ((g.nodes.lookup ref).isSome = true →
        resolve_node_id_env users g ref = Except.ok (some ref)) ∧
      (∀ expanded, (g.nodes.lookup ref).isSome = false →
        expand_path_env users ref = Except.ok expanded →
        (∀ nid, g.by_path.lookup expanded = some nid →
          resolve_node_id_env users g ref = Except.ok (some nid)) ∧
        (g.by_path.lookup expanded = none →
          ∀ pr, g.by_path.find? (fun pr => strEndsWith pr.1 ref || pathName pr.1 == ref)
              = some pr →
            resolve_node_id_env users g ref = Except.ok (some pr.2)) ∧
        (g.by_path.lookup expanded = none →
          g.by_path.find? (fun pr => strEndsWith pr.1 ref || pathName pr.1 == ref) = none →
          resolve_node_id_env users g ref = Except.ok none)) ∧
      ((g.nodes.lookup ref).isSome = false →
        expand_path_env users ref = Except.error () →
        resolve_node_id_env users g ref = Except.error ()) := by
  intro users g ref
  refine ⟨?_, ?_, ?_⟩
  · intro h1
    unfold resolve_node_id_env
    rw [if_pos h1]
  · intro expanded h1 hexp
    refine ⟨?_, ?_, ?_⟩
    · intro nid h2
      unfold resolve_node_id_env
      rw [if_neg (by simp [h1])]
      simp only [hexp, h2]
    · intro h2 pr h3
      unfold resolve_node_id_env
      rw [if_neg (by simp [h1])]
      simp only [hexp, h2, h3]
      rfl
    · intro h2 h3
      unfold resolve_node_id_env
      rw [if_neg (by simp [h1])]
      simp only [hexp, h2, h3]
      rfl
  · intro h1 herr
    unfold resolve_node_id_env
    rw [if_neg (by simp [h1])]
    simp only [herr]

/-- Witness for resolve_reference_priority_env: scenario 3 of the spec — no
node has id "a.md", the workspace expansion of "a.md" is no backing path,
and node a's backing path /kb/a.md ends with "a.md", so the reference
resolves to node a through the suffix clause of the theorem. -/
theorem resolve_reference_priority_env_witness :
    (g5.nodes.lookup "a.md").isSome = false ∧
    resolve_node_id_env (fun _ => none) g5 "a.md" = Except.ok (some "a") := by
  refine ⟨by decide, ?_⟩
  have h := ((resolve_reference_priority_env (fun _ => none) g5 "a.md").2.1
      (WORKSPACE ++ "/a.md") (by decide) (by decide)).2.1 (by decide) ("/kb/a.md", "a")
      (by decide)
  exact h

/- ## Claim C6: explicit pill selection -/

theorem selectByPills_eq_filterMap (pills : List String) :
    ∀ (optional : List Item), optsWellFormed optional = true →
      selectByPills pills optional =
        (optional.filterMap (fun o => (pillPath o).bind fun p =>
           if stemHit pills p then some p else none),
         optional.filterMap (fun o => (pillPath o).bind fun p =>
           if stemHit pills p then none else some p),
         true) := by
  intro optional
  induction optional with
  | nil => intro _; rfl
  | cons o rest ih =>
    intro hwf
    have hall := hwf
    unfold optsWellFormed at hall
    rw [List.all_cons, Bool.and_eq_true] at hall
    obtain ⟨ho, hrest⟩ := hall
    have hrest' : optsWellFormed rest = true := hrest
    have hput : (pillPath o).isSome = true := by
      cases o with
      | str s => simp [pillPath]
      | dict d => simpa [pillPath] using ho
    obtain ⟨p, hp⟩ := Option.isSome_iff_exists.mp hput
    unfold selectByPills
    simp only [hp]
    rw [ih hrest']
    by_cases hh : stemHit pills p = true
    · simp [List.filterMap_cons, hp, hh]
    · simp [List.filterMap_cons, hp, hh]

theorem processNode_pills_task_ignored (fs : String → Option String) (g : Graph)
    (task task' : String) (pills : List String) (hp : pills ≠ []) :
    processNode fs g task pills = processNode fs g task' pills := by
  funext acc node_id
  unfold processNode
  cases g.nodes.lookup node_id with
  | none => rfl
  | some node =>
    dsimp only
    by_cases hpath : node.path = ""
    · rw [if_pos hpath, if_pos hpath]
    · rw [if_neg hpath, if_neg hpath]
      cases fs node.path with
      | none => rfl
      | some content =>
        dsimp only
        by_cases hopt : node.optional.isEmpty = true
        · rw [if_pos hopt, if_pos hopt]
        · rw [if_neg hopt, if_neg hopt, if_pos hp, if_pos hp]

theorem build_context_pills_task_ignored (fs : String → Option String) (g : Graph)
    (e : String) (w : Option String) (task task' : String) (pills : List String)
    (hp : pills ≠ []) :
    build_context fs g e w task pills = build_context fs g e w task' pills := by
  unfold build_context contextAcc
  rw [processNode_pills_task_ignored fs g task task' pills hp]

/-- Claim C6: when a non-empty pill list is supplied and every structured
optional entry carries a path, an optional entry is scheduled for loading iff
the case-insensitive filename stem of its path contains some supplied pill as
a substring, and every other entry is skipped; the whole bundle is moreover
independent of the task text, so the task policy is never consulted. -/
theorem pill_selection_spec :
    ∀ (pills : List String) (optional : List Item) (fs : String → Option String)
      (g : Graph) (e : String) (w : Option String) (task task' : String),
      pills ≠ [] → optsWellFormed optional = true →
      selectByPills pills optional =
        (optional.filterMap (fun o => (pillPath o).bind fun p =>
           if stemHit pills p then some p else none),
         optional.filterMap (fun o => (pillPath o).bind fun p =>
           if stemHit pills p then none else some p),
         true) ∧
      build_context fs g e w task pills = build_context fs g e w task' pills :=
  fun pills optional fs g e w task task' hp hwf =>
    ⟨selectByPills_eq_filterMap pills optional hwf,
     build_context_pills_task_ignored fs g e w task task' pills hp⟩

/-- Witness for pill_selection_spec: the pill "auth" selects
pills/auth-pill.md (stem contains "auth"), skips pills/deploy.md, and two
assemblies with unrelated task texts produce identical bundles. -/
theorem pill_selection_spec_witness :
    selectByPills ["auth"] opts6 = (["pills/auth-pill.md"], ["pills/deploy.md"], true) ∧
    build_context fs6 g6 "s" none "deploy now" ["auth"] =
      build_context fs6 g6 "s" none "refactor code" ["auth"] := by
  have h := pill_selection_spec ["auth"] opts6 fs6 g6 "s" none "deploy now" "refactor code"
    (by decide) (by decide)
  exact ⟨h.1.trans (by decide), h.2⟩

/- ## Claim C7: task-based optional selection -/

theorem parse_optional_deps_go (task : String) (htask : task ≠ "") :
    ∀ (optional : List Item) (acc : List String × List String),
      optional.foldl
        (fun acc item =>
          match item with
          | Item.str s => if task ≠ "" then (acc.1 ++ [s], acc.2) else (acc.1, acc.2 ++ [s])
          | Item.dict d =>
            let path := (d.lookup "path").getD ""
            let pattern := (d.lookup "when").getD ""
            if matches_task pattern task then (acc.1 ++ [path], acc.2)
            else (acc.1, acc.2 ++ [path])) acc =
      (acc.1 ++ optional.filterMap (fun o =>
         match o with
         | Item.str s => some s
         | Item.dict d =>
           if matches_task ((d.lookup "when").getD "") task then
             some ((d.lookup "path").getD "") else none),
       acc.2 ++ optional.filterMap (fun o =>
         match o with
         | Item.str _ => none
         | Item.dict d =>
           if matches_task ((d.lookup "when").getD "") task then none
           else some ((d.lookup "path").getD ""))) := by
  intro optional
  induction optional with
  | nil => intro acc; simp
  | cons o rest ih =>
    intro acc
    rw [List.foldl_cons]
    cases o with
    | str s =>
      dsimp only
      rw [if_pos htask, ih]
      simp [List.filterMap_cons]
    | dict d =>
      dsimp only
      by_cases hm : matches_task ((d.lookup "when").getD "") task = true
      · rw [if_pos hm, ih]
        simp [List.filterMap_cons, hm]
      · rw [if_neg hm, ih]
        simp [List.filterMap_cons, hm]

/-- Claim C7 (counterexample): the structured entry with predicate
"deploy" (quotes included) against the task "please deploy now": a regex
search of the predicate as written fails — the task contains no quote
character — so by the claim the entry is skipped; the code strips the quotes
first and selects it. -/
theorem task_predicate_quotes_cex :
    structSelected_spec [("path", "extra.md"), ("when", "\"deploy\"")] "please deploy now"
      = false ∧
    parse_optional_deps [Item.dict [("path", "extra.md"), ("when", "\"deploy\"")]]
      "please deploy now" = (["extra.md"], []) :=
  ⟨by decide, by decide⟩

/-- Claim C7 (amended): with no pills and a non-empty task, a plain string
entry is selected unconditionally and a structured entry is selected iff
matches_task accepts its predicate against the task; matches_task first
rejects an empty predicate, then strips surrounding quote characters, runs a
case-insensitive regex search of the stripped predicate, and on an invalid
pattern falls back to a case-insensitive literal substring test of the
stripped predicate — a total function, never an error. -/
theorem task_selection_spec :
    ∀ (task : String) (optional : List Item), task ≠ "" →
      parse_optional_deps optional task =
        (optional.filterMap (fun o =>
           match o with
           | Item.str s => some s
           | Item.dict d =>
             if matches_task ((d.lookup "when").getD "") task then
               some ((d.lookup "path").getD "") else none),
         optional.filterMap (fun o =>
           match o with
           | Item.str _ => none
           | Item.dict d =>
             if matches_task ((d.lookup "when").getD "") task then none
             else some ((d.lookup "path").getD ""))) ∧
      (∀ (pattern : String) (b : Bool), pattern ≠ "" →
        reSearch (stripQuotes pattern) task = some b →
        matches_task pattern task = b) ∧
      (∀ pattern : String, pattern ≠ "" →
        reSearch (stripQuotes pattern) task = none →
        matches_task pattern task =
          listContainsSub (lowerChars (stripQuotes pattern).data) (lowerChars task.data)) := by
  intro task optional htask
  refine ⟨?_, ?_, ?_⟩
  · unfold parse_optional_deps
    rw [parse_optional_deps_go task htask optional ([], [])]
    simp
  · intro pattern b hpat hsearch
    unfold matches_task
    rw [if_neg (by simp [htask, hpat])]
    simp only [hsearch]
  · intro pattern hpat hsearch
    unfold matches_task
    rw [if_neg (by simp [htask, hpat])]
    simp only [hsearch]

/-- Witness for task_selection_spec: a plain entry, a matching predicate and
a non-matching predicate against the task "please deploy now". -/
theorem task_selection_spec_witness :
    parse_optional_deps
      [Item.str "always.md",
       Item.dict [("path", "extra.md"), ("when", "deploy")],
       Item.dict [("path", "skip.md"), ("when", "migrate")]]
      "please deploy now" = (["always.md", "extra.md"], ["skip.md"]) ∧
    matches_task "deploy" "please deploy now" = true := by
  have h := task_selection_spec "please deploy now"
    [Item.str "always.md",
     Item.dict [("path", "extra.md"), ("when", "deploy")],
     Item.dict [("path", "skip.md"), ("when", "migrate")]] (by decide)
  refine ⟨h.1.trans (by decide), ?_⟩
  exact h.2.1 "deploy" true (by decide) (by decide)

/- ## Claim C8: required externals -/

theorem extReqFold_mem (req : String) :
    ∀ (reqs er : List String),
      req ∈ reqs.foldl
        (fun er r => if requiredExternalCheck r = true ∧ r ∉ er then er ++ [r] else er) er ↔
      (req ∈ er ∨ (req ∈ reqs ∧ requiredExternalCheck req = true)) := by
  intro reqs
  induction reqs with
  | nil => intro er; simp
  | cons r rest ih =>
    intro er
    rw [List.foldl_cons]
    by_cases hc : requiredExternalCheck r = true ∧ r ∉ er
    · rw [if_pos hc, ih]
      constructor
      · rintro (h | h)
        · rcases List.mem_append.mp h with h | h
          · exact Or.inl h
          · simp only [List.mem_singleton] at h
            subst h
            exact Or.inr ⟨List.mem_cons_self _ _, hc.1⟩
        · exact Or.inr ⟨List.mem_cons_of_mem _ h.1, h.2⟩
      · rintro (h | ⟨hmem, hchk⟩)
        · exact Or.inl (List.mem_append.mpr (Or.inl h))
        · rcases List.mem_cons.mp hmem with h | h
          · subst h
            exact Or.inl (List.mem_append.mpr (Or.inr (List.mem_singleton_self _)))
          · exact Or.inr ⟨h, hchk⟩
    · rw [if_neg hc, ih]
      push_neg at hc
      constructor
      · rintro (h | ⟨hmem, hchk⟩)
        · exact Or.inl h
        · exact Or.inr ⟨List.mem_cons_of_mem _ hmem, hchk⟩
      · rintro (h | ⟨hmem, hchk⟩)
        · exact Or.inl h
        · rcases List.mem_cons.mp hmem with h | h
          · subst h
            exact Or.inl (hc hchk)
          · exact Or.inr ⟨h, hchk⟩

theorem processNode_extReq_mem (fs : String → Option String) (g : Graph) (task : String)
    (pills : List String) (acc : BuildAcc) (nid : String) (req : String) :
    req ∈ (processNode fs g task pills acc nid).extReq ↔
      (req ∈ acc.extReq ∨
        ∃ node, g.nodes.lookup nid = some node ∧ node.path ≠ "" ∧
          (fs node.path).isSome = true ∧ req ∈ node.requires ∧
          requiredExternalCheck req = true) := by
  unfold processNode
  cases hl : g.nodes.lookup nid with
  | none =>
    dsimp only
    simp
  | some node =>
    dsimp only
    by_cases hpath : node.path = ""
    · rw [if_pos hpath]
      simp [hpath]
    · rw [if_neg hpath]
      cases hfs : fs node.path with
      | none =>
        dsimp only
        simp [hfs, hpath]
      | some content =>
        dsimp only
        by_cases hopt : node.optional.isEmpty = true
        · rw [if_pos hopt]
          dsimp only
          rw [extReqFold_mem]
          simp [hpath, hfs]
        · rw [if_neg hopt]
          by_cases hp : pills ≠ []
          · rw [if_pos hp]
            generalize selectByPills pills node.optional = triple
            obtain ⟨l, s, ok⟩ := triple
            dsimp only
            rw [extReqFold_mem]
            simp [hpath, hfs]
          · rw [if_neg hp]
            generalize parse_optional_deps node.optional task = pair
            obtain ⟨l, s⟩ := pair
            dsimp only
            rw [extReqFold_mem]
            simp [hpath, hfs]

theorem contextAcc_fold_extReq_mem (fs : String → Option String) (g : Graph) (task : String)
    (pills : List String) (req : String) :
    ∀ (deps : List String) (acc : BuildAcc),
      req ∈ (deps.foldl (processNode fs g task pills) acc).extReq ↔
        (req ∈ acc.extReq ∨
          ∃ nid ∈ deps, ∃ node, g.nodes.lookup nid = some node ∧ node.path ≠ "" ∧
            (fs node.path).isSome = true ∧ req ∈ node.requires ∧
            requiredExternalCheck req = true) := by
  intro deps
  induction deps with
  | nil => intro acc; simp
  | cons d rest ih =>
    intro acc
    rw [List.foldl_cons, ih, processNode_extReq_mem]
    constructor
    · rintro ((h | ⟨node, hn⟩) | ⟨nid, hnid, hrest⟩)
      · exact Or.inl h
      · exact Or.inr ⟨d, List.mem_cons_self _ _, node, hn⟩
      · exact Or.inr ⟨nid, List.mem_cons_of_mem _ hnid, hrest⟩
    · rintro (h | ⟨nid, hnid, hrest⟩)
      · exact Or.inl (Or.inl h)
      · rcases List.mem_cons.mp hnid with h | h
        · subst h
          exact Or.inl (Or.inr hrest)
        · exact Or.inr ⟨nid, h, hrest⟩

/-- Claim C8 (counterexample): "~/other/x.md" is a home-relative path outside
every corpus root, so by the claim it is a required external; the code only
accepts the prefixes "/" and "~/gdrive", so assembling node a — whose file is
loaded and whose requires list contains exactly that reference, with the
target present on the external store — loads no external file at all. -/
theorem required_external_prefix_cex :
    isExternalRequired_spec "~/other/x.md" = true ∧
    fs8 (expand_path "~/other/x.md") = some "Xdoc" ∧
    (build_context fs8 g8 "a" none "" []).files = [("a", "Adoc")] ∧
    (build_context fs8 g8 "a" none "" []).external_files = [] :=
  ⟨by decide, by decide, by decide, by decide⟩

/-- Claim C8 (amended): during context assembly, a requires entry of a node
in the dependency list is scheduled as a required external iff the node is
present, its backing file loads, and the entry passes requiredExternalCheck —
it starts with "/" or with the literal prefix "~/gdrive"; no other
home-relative prefix qualifies. -/
theorem required_external_prefix_spec :
    ∀ (fs : String → Option String) (g : Graph) (task : String) (pills : List String)
      (deps : List String) (req : String),
      req ∈ (contextAcc fs g task pills deps).extReq ↔
        (requiredExternalCheck req = true ∧
          ∃ nid ∈ deps, ∃ node, g.nodes.lookup nid = some node ∧ node.path ≠ "" ∧
            (fs node.path).isSome = true ∧ req ∈ node.requires) := by
  intro fs g task pills deps req
  unfold contextAcc
  rw [contextAcc_fold_extReq_mem]
  constructor
  · rintro (h | ⟨nid, hnid, node, h1, h2, h3, h4, h5⟩)
    · exact absurd h (List.not_mem_nil req)
    · exact ⟨h5, nid, hnid, node, h1, h2, h3, h4⟩
  · rintro ⟨h5, nid, hnid, node, h1, h2, h3, h4⟩
    exact Or.inr ⟨nid, hnid, node, h1, h2, h3, h4, h5⟩

/- ## Claim C9: determinism of the Dependency Resolver -/

/-- Claim C9: the Dependency Resolver is a pure function of the Graph Index,
the entry reference and the include-optional flag — the embedding shows the
source reads no other state (its visited set is used for membership only and
dict iteration order is insertion order), so two invocations on the same
arguments return identical results. -/
theorem resolve_deterministic :
    ∀ (g : Graph) (entry : String) (io : Bool),
      resolve_dependencies g entry io = resolve_dependencies g entry io :=
  fun _ _ _ => rfl

/- ## Claim C10: assembly through a fallback-resolved entry reference -/

/-- Claim C10: when the entry reference is not a node id but resolves through
the path/filename fallback, build_context still returns the resolver's full
dependency-ordered list, yet the bundle's entry field is the raw reference
and all three metadata fields are absent, because the entry metadata lookup
uses the raw reference. -/
theorem context_raw_entry_metadata :
    ∀ (fs : String → Option String) (g : Graph) (entry task : String) (pills : List String),
      (g.nodes.lookup entry).isSome = false →
      (resolve_node_id g entry).isSome = true →
      (build_context fs g entry none task pills).entry = entry ∧
      (build_context fs g entry none task pills).metadata = ⟨none, none, none⟩ ∧
      (build_context fs g entry none task pills).nodes =
        (resolve_dependencies g entry false).toOption.getD [] := by
  intro fs g entry task pills hnone _hres
  have hl : g.nodes.lookup entry = none := by
    cases h : g.nodes.lookup entry with
    | none => rfl
    | some v => rw [h] at hnone; cases hnone
  unfold build_context
  simp [hl]

/-- Witness for context_raw_entry_metadata: the entry "a.md" resolves to node
a (path /kb/a.md), the bundle lists its dependency b before it, and the
metadata is empty even though node a declares type, specialist and title. -/
theorem context_raw_entry_metadata_witness :
    (g10.nodes.lookup "a.md").isSome = false ∧
    (resolve_node_id g10 "a.md").isSome = true ∧
    (build_context fs10 g10 "a.md" none "" []).entry = "a.md" ∧
    (build_context fs10 g10 "a.md" none "" []).metadata = ⟨none, none, none⟩ ∧
    (build_context fs10 g10 "a.md" none "" []).nodes = ["b", "a"] := by
  have h := context_raw_entry_metadata fs10 g10 "a.md" "" [] (by decide) (by decide)
  exact ⟨by decide, by decide, h.1, h.2.1, h.2.2.trans (by decide)⟩

end KG
